import Mathlib

/-!
Verification of the dialog-file protocol of FileBasedAIChat.

The source of truth is `src/dialog_manager.py`.  Text is modelled as
`List Char` (one entry per code point, matching Python `str`).  The three
regular expressions of the source

  MODEL_REGEX        = "^model:\\s*(\\S+)"                     (re.MULTILINE)
  BEHAVIOR_REGEX     = "^behavior:\\s*(\\S+)"                  (re.MULTILINE)
  CONVERSATION_REGEX = "^(Human|AI):\\s*(.+?)(?=\\n(?:Human|AI):\\s*|\\Z)"
                                                    (re.MULTILINE | re.DOTALL)

are embedded as explicit character scanners with exactly the Python `re`
semantics for these patterns: leftmost match over all positions with `^`
gated on line starts, greedy `\s*` (backtracking by one character when the
lazy `(.+?)` would otherwise have no character left), lazy `(.+?)` stopping
at the first position where the lookahead holds, and `finditer` resuming at
the end of the previous match.  `\s` is the ASCII whitespace class
(space, \t, \n, \r, \x0b, \x0c), which is what Python matches on the
ASCII inputs this file format uses.

The JSON config files are external data and enter as a `Registry` value;
the filesystem is a small explicit state (`FS`).
-/

set_option maxRecDepth 8192

/-- Python whitespace test restricted to ASCII: the characters matched by
`\s` and stripped by `str.strip()` on ASCII text. -/
def isSpace (c : Char) : Bool :=
  c = ' ' || c = '\t' || c = '\n' || c = '\r' || c = '\x0b' || c = '\x0c'

/-- Python `str.strip()`: drop leading and trailing whitespace. -/
def stripChars (l : List Char) : List Char :=
  ((l.dropWhile isSpace).reverse.dropWhile isSpace).reverse

/-- Drop the exact prefix `k` from `s`; `none` when `s` does not start
with `k`.  Used to match literal regex fragments. -/
def dropPre : List Char → List Char → Option (List Char)
  | [], s => some s
  | _ :: _, [] => none
  | k :: ks, c :: cs => if c = k then dropPre ks cs else none

/-- `startsWith pat s` = `pat` is a prefix of `s`. -/
def startsWith : List Char → List Char → Bool
  | [], _ => true
  | _ :: _, [] => false
  | p :: ps, c :: cs => p = c && startsWith ps cs

/-- `hasSub pat s` = `pat` occurs as a contiguous substring of `s`. -/
def hasSub (pat : List Char) : List Char → Bool
  | [] => startsWith pat []
  | c :: cs => startsWith pat (c :: cs) || hasSub pat cs

/-- Membership of a string in a list of strings (Python `in` on dict keys). -/
def memStr (n : List Char) : List (List Char) → Bool
  | [] => false
  | x :: xs => if x = n then true else memStr n xs

/-- Modelled from the spec: `src/constants.py` is not in the source tree;
spec section 6 fixes the Human marker token as the literal `Human`. -/
def HUMAN_MARKER : List Char := ['H', 'u', 'm', 'a', 'n']

/-- Modelled from the spec: `src/constants.py` is not in the source tree;
spec section 6 fixes the AI marker token as the literal `AI`. -/
def AI_MARKER : List Char := ['A', 'I']

def MODEL_KW : List Char := ['m', 'o', 'd', 'e', 'l', ':']

def BEHAVIOR_KW : List Char := ['b', 'e', 'h', 'a', 'v', 'i', 'o', 'r', ':']

/-- After a matched header keyword, `\s*(\S+)` : skip whitespace greedily
(which may cross newlines), then capture a maximal nonempty run of
non-whitespace characters.  `\s` and `\S` are disjoint character classes,
so the greedy/backtracking behaviour of the real engine coincides with
this direct computation. -/
def grabToken (s : List Char) : Option (List Char) :=
  match (s.dropWhile isSpace).takeWhile (fun c => !isSpace c) with
  | [] => none
  | c :: cs => some (c :: cs)

/-- One anchored attempt of `^kw\s*(\S+)` at the current position. -/
def tryHeader (kw s : List Char) : Option (List Char) :=
  match dropPre kw s with
  | none => none
  | some r => grabToken r

/-- `re.search` with `re.MULTILINE`: try every position left to right, the
`^` assertion restricting attempts to line starts (`atLS`). -/
def searchHeaderFrom (kw : List Char) : Bool → List Char → Option (List Char)
  | _, [] => none
  | true, c :: cs =>
    match tryHeader kw (c :: cs) with
    | some t => some t
    | none => searchHeaderFrom kw (c = '\n') cs
  | false, c :: cs => searchHeaderFrom kw (c = '\n') cs

def searchHeader (kw s : List Char) : Option (List Char) :=
  searchHeaderFrom kw true s

/-- The `(Human|AI):` alternation, `Human` tried first, then the colon.
Returns the captured speaker and the remaining text. -/
def matchMarker (s : List Char) : Option (List Char × List Char) :=
  match dropPre (HUMAN_MARKER ++ [':']) s with
  | some r => some (HUMAN_MARKER, r)
  | none =>
    match dropPre (AI_MARKER ++ [':']) s with
    | some r => some (AI_MARKER, r)
    | none => none

/-- The lookahead `(?=\n(?:Human|AI):\s*|\Z)` at an interior position:
a newline followed by a marker and colon (`\s*` always matches and `\Z`
is handled by the callers at the end of the text). -/
def isBoundary : List Char → Bool
  | '\n' :: u => (matchMarker u).isSome
  | _ => false

/-- Consume characters until the first position where the lookahead holds
(end of list always qualifies, mirroring `\Z`).  Returns the consumed
characters and the rest. -/
def splitAtBoundary : List Char → List Char × List Char
  | [] => ([], [])
  | c :: cs =>
    if isBoundary (c :: cs) then ([], c :: cs)
    else
      let p := splitAtBoundary cs
      (c :: p.1, p.2)

/-- One anchored attempt of the conversation pattern at the current
position: marker, colon, greedy `\s*`, lazy `(.+?)`, lookahead.  Returns
the speaker, the raw group-2 text and the rest of the input after the
match.  The greedy `\s*` backtracks by exactly one character in the single
situation where nothing follows the whitespace run (then `(.+?)` takes the
last whitespace character and the lookahead holds at `\Z`). -/
def tryTurnTail (spk r : List Char) : Option (List Char × List Char × List Char) :=
  match r.dropWhile isSpace with
  | [] =>
    match (r.takeWhile isSpace).getLast? with
    | none => none
    | some c => some (spk, [c], [])
  | b :: bs => some (spk, (splitAtBoundary (b :: bs)).1, (splitAtBoundary (b :: bs)).2)

def tryTurn (s : List Char) : Option (List Char × List Char × List Char) :=
  match matchMarker s with
  | none => none
  | some (spk, r) => tryTurnTail spk r

theorem dropPre_eq_append {k s r : List Char} (h : dropPre k s = some r) :
    s = k ++ r := by
  induction k generalizing s with
  | nil =>
    simp only [dropPre, Option.some.injEq] at h
    simp [h]
  | cons a ks ih =>
    cases s with
    | nil => simp [dropPre] at h
    | cons c cs =>
      by_cases hc : c = a
      · subst hc
        simp only [dropPre, if_pos rfl] at h
        simpa using ih h
      · simp [dropPre, hc] at h

theorem dropPre_self_append (k r : List Char) : dropPre k (k ++ r) = some r := by
  induction k with
  | nil => simp [dropPre]
  | cons a ks ih => simp [dropPre, ih]

theorem length_dropWhile_le (p : Char → Bool) (l : List Char) :
    (l.dropWhile p).length ≤ l.length := by
  induction l with
  | nil => simp
  | cons a l ih =>
    by_cases h : p a <;> simp [List.dropWhile_cons, h] <;> omega

theorem matchMarker_eq {s spk r : List Char} (h : matchMarker s = some (spk, r)) :
    (spk = HUMAN_MARKER ∧ s = HUMAN_MARKER ++ ':' :: r) ∨
    (spk = AI_MARKER ∧ s = AI_MARKER ++ ':' :: r) := by
  unfold matchMarker at h
  cases hH : dropPre (HUMAN_MARKER ++ [':']) s with
  | some rH =>
    simp only [hH, Option.some.injEq, Prod.mk.injEq] at h
    obtain ⟨rfl, rfl⟩ := h
    left
    refine ⟨rfl, ?_⟩
    have := dropPre_eq_append hH
    simpa using this
  | none =>
    simp only [hH] at h
    cases hA : dropPre (AI_MARKER ++ [':']) s with
    | some rA =>
      simp only [hA, Option.some.injEq, Prod.mk.injEq] at h
      obtain ⟨rfl, rfl⟩ := h
      right
      refine ⟨rfl, ?_⟩
      have := dropPre_eq_append hA
      simpa using this
    | none => simp [hA] at h

theorem matchMarker_length {s spk r : List Char} (h : matchMarker s = some (spk, r)) :
    r.length + 3 ≤ s.length := by
  rcases matchMarker_eq h with ⟨_, rfl⟩ | ⟨_, rfl⟩ <;> simp [HUMAN_MARKER, AI_MARKER]

theorem splitAtBoundary_append_eq (l : List Char) :
    (splitAtBoundary l).1 ++ (splitAtBoundary l).2 = l := by
  induction l with
  | nil => simp [splitAtBoundary]
  | cons c cs ih =>
    by_cases hb : isBoundary (c :: cs)
    · simp [splitAtBoundary, hb]
    · simp [splitAtBoundary, hb, ih]

theorem tryTurn_rest_length {s spk raw rest : List Char}
    (h : tryTurn s = some (spk, raw, rest)) : rest.length < s.length := by
  unfold tryTurn at h
  cases hm : matchMarker s with
  | none => simp [hm] at h
  | some pr =>
    obtain ⟨spk0, r⟩ := pr
    simp only [hm] at h
    have hlen : r.length + 3 ≤ s.length := matchMarker_length hm
    unfold tryTurnTail at h
    cases hd : r.dropWhile isSpace with
    | nil =>
      simp only [hd] at h
      cases hg : (r.takeWhile isSpace).getLast? with
      | none => simp [hg] at h
      | some c =>
        simp only [hg, Option.some.injEq, Prod.mk.injEq] at h
        obtain ⟨rfl, rfl, rfl⟩ := h
        simp only [List.length_nil]
        omega
    | cons b bs =>
      simp only [hd, Option.some.injEq, Prod.mk.injEq] at h
      obtain ⟨rfl, rfl, rfl⟩ := h
      have h2 : (splitAtBoundary (b :: bs)).2.length ≤ (b :: bs).length := by
        conv_rhs => rw [← splitAtBoundary_append_eq (b :: bs)]
        simp
      have h3 : (b :: bs).length ≤ r.length := by
        rw [← hd]; exact length_dropWhile_le isSpace r
      simp only [List.length_cons] at h2 h3
      omega

/-- `finditer` over the conversation pattern, with explicit fuel to keep the
recursion structural (`scanTurns` below supplies sufficient fuel).  `atLS`
tracks whether the current position is a line start (position 0 or just
after a newline), which is what the `^` assertion tests under
`re.MULTILINE`.  On a match the scan resumes at the end of the match; the
raw captured text is stripped like `match.group(2).strip()`. -/
def scanTurnsF : Nat → Bool → List Char → List (List Char × List Char)
  | 0, _, _ => []
  | _ + 1, _, [] => []
  | fuel + 1, atLS, c :: cs =>
    if atLS then
      match tryTurn (c :: cs) with
      | some (spk, raw, rest) =>
        (spk, stripChars raw) :: scanTurnsF fuel (raw.getLast? == some '\n') rest
      | none => scanTurnsF fuel (c = '\n') cs
    else scanTurnsF fuel (c = '\n') cs

theorem scanTurnsF_fuel (fuel : Nat) :
    ∀ b s, s.length < fuel → scanTurnsF fuel b s = scanTurnsF (s.length + 1) b s := by
  induction fuel using Nat.strong_induction_on with
  | _ fuel ih =>
    intro b s hlen
    cases fuel with
    | zero => omega
    | succ f =>
      cases s with
      | nil => simp [scanTurnsF]
      | cons c cs =>
        have hcs : cs.length + 1 < f + 1 := by simpa using hlen
        simp only [scanTurnsF]
        by_cases hb : b
        · subst hb
          simp only [if_pos rfl]
          cases ht : tryTurn (c :: cs) with
          | some t =>
            obtain ⟨spk, raw, rest⟩ := t
            have hr : rest.length < cs.length + 1 := by
              simpa using tryTurn_rest_length ht
            have h1 : scanTurnsF f (raw.getLast? == some '\n') rest =
                scanTurnsF (rest.length + 1) (raw.getLast? == some '\n') rest :=
              ih f (by omega) _ _ (by omega)
            have h2 : scanTurnsF (cs.length + 1) (raw.getLast? == some '\n') rest =
                scanTurnsF (rest.length + 1) (raw.getLast? == some '\n') rest :=
              ih (cs.length + 1) (by omega) _ _ (by omega)
            simp [h1, h2]
          | none =>
            have h1 : scanTurnsF f (c = '\n') cs = scanTurnsF (cs.length + 1) (c = '\n') cs :=
              ih f (by omega) _ _ (by omega)
            simp [h1]
        · simp only [if_neg hb]
          have h1 : scanTurnsF f (c = '\n') cs = scanTurnsF (cs.length + 1) (c = '\n') cs :=
            ih f (by omega) _ _ (by omega)
          simp [h1]

/-- `re.finditer(CONVERSATION_REGEX, s)` followed by per-match
`(match.group(1), match.group(2).strip())`, starting at position 0. -/
def scanTurns (b : Bool) (s : List Char) : List (List Char × List Char) :=
  scanTurnsF (s.length + 1) b s

theorem scanTurns_nil (b : Bool) : scanTurns b [] = [] := rfl

theorem scanTurns_cons_true (c : Char) (cs : List Char) :
    scanTurns true (c :: cs) =
      (match tryTurn (c :: cs) with
      | some (spk, raw, rest) =>
        (spk, stripChars raw) :: scanTurns (raw.getLast? == some '\n') rest
      | none => scanTurns (c = '\n') cs) := by
  show scanTurnsF (cs.length + 2) true (c :: cs) = _
  simp only [scanTurnsF, if_pos rfl]
  cases ht : tryTurn (c :: cs) with
  | some t =>
    obtain ⟨spk, raw, rest⟩ := t
    have hr : rest.length < (c :: cs).length := tryTurn_rest_length ht
    have := scanTurnsF_fuel (cs.length + 1) (raw.getLast? == some '\n') rest
      (by simp at hr; omega)
    simp [scanTurns, this]
  | none =>
    have := scanTurnsF_fuel (cs.length + 1) (c = '\n') cs (by omega)
    simp [scanTurns, this]

theorem scanTurns_cons_false (c : Char) (cs : List Char) :
    scanTurns false (c :: cs) = scanTurns (c = '\n') cs := by
  show scanTurnsF (cs.length + 2) false (c :: cs) = _
  simp only [scanTurnsF, if_neg (by simp : ¬(false = true))]
  exact scanTurnsF_fuel (cs.length + 1) (c = '\n') cs (by omega)

/-! ## Registry, errors and the parser (`dialog_manager.py`) -/

/-- The JSON value a behavior name maps to in `behavior_templates.json`.
`description` / `temperature` are `none` when the field is absent (or JSON
null), mirroring `dict.get`; `otherFields` counts any further keys, so that
Python truthiness of the record (`if behavior_data:` — a non-empty dict is
truthy) is representable. -/
structure BehaviorRecord where
  description : Option (List Char)
  temperature : Option Rat
  otherFields : Nat
deriving DecidableEq, Repr

/-- Python truthiness of the record dict: non-empty means truthy. -/
def BehaviorRecord.truthy (r : BehaviorRecord) : Bool :=
  r.description.isSome || r.temperature.isSome || r.otherFields != 0

/-- The two externally-owned JSON maps: the model config (only key
membership is ever used by `dialog_manager.py`) and the behavior config. -/
structure Registry where
  models : List (List Char)
  behaviors : List (List Char × BehaviorRecord)
deriving DecidableEq, Repr

/-- First-match lookup in the behavior map (`dict.get`). -/
def lookupB : List (List Char × BehaviorRecord) → List Char → Option BehaviorRecord
  | [], _ => none
  | (k, v) :: rest, n => if k = n then some v else lookupB rest n

/-- `is_model_valid`: `model_name in load_json_config(models_config_path)`. -/
def is_model_valid (reg : Registry) (name : List Char) : Bool :=
  memStr name reg.models

/-- `is_behavior_valid`: `behavior_name in load_json_config(behavior_config_path)`. -/
def is_behavior_valid (reg : Registry) (name : List Char) : Bool :=
  (lookupB reg.behaviors name).isSome

/-- The distinct `ValueError` raise sites of `dialog_manager.py` (plus the
`FileNotFoundError` that `os.makedirs("")` raises and the one from opening
a missing file). -/
inductive DialogError where
  | fileNotFound
  | fileSystemError
  | missingModel
  | unsupportedModel (name : List Char)
  | missingBehavior
  | unsupportedBehavior (name : List Char)
  | corruptBehaviorData (name : List Char)
  | emptyOrMissingFinalTurn
  | defaultModelNotFound (name : List Char)
  | defaultBehaviorNotFound (name : List Char)
deriving DecidableEq, Repr

deriving instance DecidableEq for Except

/-- `parse_model_from_dialog` (dialog_manager.py lines 105-123). -/
def parse_model_from_dialog (reg : Registry) (content : List Char) :
    Except DialogError (List Char) :=
  match searchHeader MODEL_KW content with
  | some name =>
    if is_model_valid reg name then .ok name
    else .error (.unsupportedModel name)
  | none => .error .missingModel

/-- `parse_behavior_from_dialog` (dialog_manager.py lines 126-152). -/
def parse_behavior_from_dialog (reg : Registry) (content : List Char) :
    Except DialogError (Option (List Char) × Option Rat) :=
  match searchHeader BEHAVIOR_KW content with
  | some name =>
    if is_behavior_valid reg name then
      match lookupB reg.behaviors name with
      | some rec =>
        if rec.truthy then .ok (rec.description, rec.temperature)
        else .error (.corruptBehaviorData name)
      | none => .error (.corruptBehaviorData name)
    else .error (.unsupportedBehavior name)
  | none => .error .missingBehavior

/-- `parse_conversation_from_dialog` (dialog_manager.py lines 155-179):
run the conversation regex over the text, then enforce the final-turn
invariant (`not conversation or conversation[-1][0] != HUMAN_MARKER or not
conversation[-1][1]`). -/
def parse_conversation_from_dialog (content : List Char) :
    Except DialogError (List (List Char × List Char)) :=
  let conversation := scanTurns true content
  match conversation.getLast? with
  | none => .error .emptyOrMissingFinalTurn
  | some (spk, statement) =>
    if spk = HUMAN_MARKER ∧ statement ≠ [] then .ok conversation
    else .error .emptyOrMissingFinalTurn

structure DialogDocument where
  model : List Char
  temperature : Option Rat
  behavior_description : Option (List Char)
  conversation : List (List Char × List Char)
deriving DecidableEq, Repr

/-- The body of `parse_dialog_file` after the file read (dialog_manager.py
lines 197-206): model, then behavior, then conversation, failing fast. -/
def parse_dialog_content (reg : Registry) (content : List Char) :
    Except DialogError DialogDocument :=
  match parse_model_from_dialog reg content with
  | .error e => .error e
  | .ok model =>
    match parse_behavior_from_dialog reg content with
    | .error e => .error e
    | .ok (behavior_description, temperature) =>
      match parse_conversation_from_dialog content with
      | .error e => .error e
      | .ok conversation =>
        .ok { model := model, temperature := temperature,
              behavior_description := behavior_description,
              conversation := conversation }

/-! ## Filesystem model and the stateful operations -/

/-- A flat filesystem: files (path to contents, later writes shadow earlier
entries) and directories.  Paths are raw strings, as in the source. -/
structure FS where
  files : List (List Char × List Char)
  dirs : List (List Char)
deriving DecidableEq, Repr

def lookupF : List (List Char × List Char) → List Char → Option (List Char)
  | [], _ => none
  | (k, v) :: rest, n => if k = n then some v else lookupF rest n

def FS.read (fs : FS) (p : List Char) : Option (List Char) :=
  lookupF fs.files p

def FS.pathExists (fs : FS) (p : List Char) : Bool :=
  (fs.read p).isSome

/-- `os.path.exists`: true for files and directories, always false for the
empty path. -/
def FS.osExists (fs : FS) (p : List Char) : Bool :=
  fs.pathExists p || memStr p fs.dirs

def FS.write (fs : FS) (p c : List Char) : FS :=
  { fs with files := (p, c) :: fs.files }

/-- `os.path.dirname`: everything before the last slash, with trailing
slashes stripped unless the head is all slashes (POSIX semantics).  In
particular the dirname of a bare filename is the empty string. -/
def dirname (p : List Char) : List Char :=
  let r := p.reverse
  let headRev := r.dropWhile (fun c => c ≠ '/')
  let head := headRev.reverse
  if head.all (fun c => c = '/') then head
  else (head.reverse.dropWhile (fun c => c = '/')).reverse

/-- `os.makedirs(d, exist_ok=True)`: fails (FileNotFoundError) on the empty
path, otherwise records the directory. -/
def os_makedirs (fs : FS) (d : List Char) : Option FS :=
  if d = [] then none else some { fs with dirs := d :: fs.dirs }

def COLON_SPACE : List Char := [':', ' ']

/-- The skeleton written by `create_default_dialog_file` (dialog_manager.py
lines 78-81): `model: <m>\n`, `behavior: <b>\n\n`, then the Human marker
and `: ` with no content. -/
def skeletonContent (m b : List Char) : List Char :=
  ['m', 'o', 'd', 'e', 'l', ':', ' '] ++ m ++ '\n' ::
    (['b', 'e', 'h', 'a', 'v', 'i', 'o', 'r', ':', ' '] ++ b ++ '\n' :: '\n' ::
      (HUMAN_MARKER ++ COLON_SPACE))

/-- The default-dialog configuration record (`default_dialog_config.json`). -/
structure DefaultConfig where
  default_model : List Char
  default_behavior : List Char
deriving DecidableEq, Repr

/-- `create_default_dialog_file` (dialog_manager.py lines 58-81): validate
the default model, then the default behavior, then write the skeleton.
The error (if any) is returned next to the state at the time of the raise,
so frame properties are visible. -/
def create_default_dialog_file (reg : Registry) (dc : DefaultConfig)
    (fs : FS) (path : List Char) : Option DialogError × FS :=
  if ¬ is_model_valid reg dc.default_model then
    (some (.defaultModelNotFound dc.default_model), fs)
  else if ¬ is_behavior_valid reg dc.default_behavior then
    (some (.defaultBehaviorNotFound dc.default_behavior), fs)
  else
    (none, fs.write path (skeletonContent dc.default_model dc.default_behavior))

/-- `check_or_create_dialog_file` (dialog_manager.py lines 84-102):
ensure the parent directory (this is where `os.makedirs` blows up on an
empty dirname), return `true` if `os.path.exists(file_path)` — true for a
file or a directory at the path — otherwise create the default skeleton
and return `false`. -/
def check_or_create_dialog_file (reg : Registry) (dc : DefaultConfig)
    (fs : FS) (path : List Char) : Except DialogError Bool × FS :=
  let d := dirname path
  let step := fun (fs1 : FS) =>
    if fs1.osExists path then ((.ok true : Except DialogError Bool), fs1)
    else
      match create_default_dialog_file reg dc fs1 path with
      | (some e, fs2) => (.error e, fs2)
      | (none, fs2) => (.ok false, fs2)
  if fs.osExists d then step fs
  else
    match os_makedirs fs d with
    | none => (.error .fileSystemError, fs)
    | some fs1 => step fs1

/-- `parse_dialog_file` (dialog_manager.py lines 182-206): read the file,
then parse its content. -/
def parse_dialog_file (reg : Registry) (fs : FS) (path : List Char) :
    Except DialogError DialogDocument :=
  match fs.read path with
  | none => .error .fileNotFound
  | some content => parse_dialog_content reg content

def joinL : List (List Char) → List Char
  | [] => []
  | f :: fs => f ++ joinL fs

/-- The file content after a complete `append_ai_response_to_dialog`
(dialog_manager.py lines 209-222): `\nAI: `, every fragment in order, then
`\n\nHuman: `. -/
def appendFullContent (old : List Char) (frags : List (List Char)) : List Char :=
  old ++ '\n' :: (AI_MARKER ++ COLON_SPACE ++ joinL frags ++ '\n' :: '\n' ::
    (HUMAN_MARKER ++ COLON_SPACE))

/-- The file content after `append_ai_response_to_dialog` whose generator
raised (or was cancelled) after yielding `ys`: each flushed fragment stays,
the closing `\n\nHuman: ` is never written (the exception propagates out of
the `for` loop; the context manager only closes the file). -/
def appendInterruptedContent (old : List Char) (ys : List (List Char)) : List Char :=
  old ++ '\n' :: (AI_MARKER ++ COLON_SPACE ++ joinL ys)

def append_ai_response_to_dialog (fs : FS) (path : List Char)
    (frags : List (List Char)) : FS :=
  fs.write path (appendFullContent ((fs.read path).getD []) frags)

def append_ai_interrupted (fs : FS) (path : List Char)
    (ys : List (List Char)) : FS :=
  fs.write path (appendInterruptedContent ((fs.read path).getD []) ys)

/-! ## Canonical well-formed documents (the spec's file grammar, section 6) -/

/-- A `<token>` as required by the header grammar: a nonempty run of
non-whitespace characters. -/
def isToken (t : List Char) : Bool :=
  !t.isEmpty && t.all (fun c => !isSpace c)

/-- The marker-boundary pattern: a newline directly followed by the Human
marker and a colon. -/
def BD_HUMAN : List Char := '\n' :: (HUMAN_MARKER ++ [':'])

/-- The marker-boundary pattern: a newline directly followed by the AI
marker and a colon. -/
def BD_AI : List Char := '\n' :: (AI_MARKER ++ [':'])

/-- No marker boundary (`\nHuman:` / `\nAI:`) occurs inside `c`. -/
def noBd (c : List Char) : Bool :=
  !hasSub BD_HUMAN c && !hasSub BD_AI c

/-- A conversation turn content in canonical shape: nonempty, no leading or
trailing whitespace, and no embedded marker line. -/
def goodContent (c : List Char) : Bool :=
  match c.head?, c.getLast? with
  | some a, some z => !isSpace a && !isSpace z && noBd c
  | _, _ => false

def goodTurn (t : List Char × List Char) : Bool :=
  (t.1 = HUMAN_MARKER || t.1 = AI_MARKER) && goodContent t.2

/-- `Speaker: content` (spec section 6). -/
def renderTurn (t : List Char × List Char) : List Char :=
  t.1 ++ ':' :: ' ' :: t.2

/-- Turns separated by a blank line (spec section 6). -/
def renderTurns : List (List Char × List Char) → List Char
  | [] => []
  | [t] => renderTurn t
  | t :: t2 :: ts => renderTurn t ++ '\n' :: '\n' :: renderTurns (t2 :: ts)

/-- The two header lines followed by a blank line (spec section 6). -/
def headersOf (m b : List Char) : List Char :=
  ['m', 'o', 'd', 'e', 'l', ':', ' '] ++ m ++ '\n' ::
    (['b', 'e', 'h', 'a', 'v', 'i', 'o', 'r', ':', ' '] ++ b ++ '\n' :: '\n' :: [])

/-- A canonical well-formed dialog file: headers, blank line, turns
separated by blank lines, trailing newline. -/
def renderDialog (m b : List Char) (ts : List (List Char × List Char)) : List Char :=
  headersOf m b ++ renderTurns ts ++ ['\n']

/-! ## Substring and strip lemmas -/

theorem startsWith_length {pat y : List Char} (h : startsWith pat y = true) :
    pat.length ≤ y.length := by
  induction pat generalizing y with
  | nil => simp
  | cons p ps ih =>
    cases y with
    | nil => simp [startsWith] at h
    | cons c cs =>
      simp only [startsWith, Bool.and_eq_true] at h
      have := ih h.2
      simp only [List.length_cons]
      omega

theorem startsWith_append_ext {pat y : List Char} (t : List Char)
    (h : startsWith pat y = true) : startsWith pat (y ++ t) = true := by
  induction pat generalizing y with
  | nil => simp [startsWith]
  | cons p ps ih =>
    cases y with
    | nil => simp [startsWith] at h
    | cons c cs =>
      simp only [startsWith, Bool.and_eq_true] at h
      simp only [List.cons_append, startsWith, Bool.and_eq_true]
      exact ⟨h.1, ih h.2⟩

theorem startsWith_self_append (M r : List Char) : startsWith M (M ++ r) = true := by
  induction M with
  | nil => simp [startsWith]
  | cons p ps ih => simp [startsWith, ih]

theorem startsWith_eq_append {M y : List Char} (h : startsWith M y = true) :
    ∃ z, y = M ++ z := by
  induction M generalizing y with
  | nil => exact ⟨y, rfl⟩
  | cons p ps ih =>
    cases y with
    | nil => simp [startsWith] at h
    | cons c cs =>
      simp only [startsWith, Bool.and_eq_true, decide_eq_true_eq] at h
      obtain ⟨z, hz⟩ := ih h.2
      exact ⟨z, by simp [h.1, hz]⟩

theorem startsWith_concat {pat y : List Char} {x : Char}
    (h : startsWith pat (y ++ [x]) = true) :
    startsWith pat y = true ∨ pat = y ++ [x] := by
  induction pat generalizing y with
  | nil => simp [startsWith]
  | cons p ps ih =>
    cases y with
    | nil =>
      simp only [List.nil_append, startsWith, Bool.and_eq_true, decide_eq_true_eq] at h
      obtain ⟨rfl, h2⟩ := h
      cases ps with
      | nil => right; rfl
      | cons q qs => simp [startsWith] at h2
    | cons c cs =>
      simp only [List.cons_append, startsWith, Bool.and_eq_true, decide_eq_true_eq] at h
      rcases ih h.2 with h3 | h3
      · left; simp [startsWith, h.1, h3]
      · right; simp [h.1, h3]

theorem hasSub_cons (pat : List Char) (a : Char) (l : List Char) :
    hasSub pat (a :: l) = (startsWith pat (a :: l) || hasSub pat l) := rfl

theorem hasSub_append_left {pat t : List Char} (s : List Char)
    (h : hasSub pat t = true) : hasSub pat (s ++ t) = true := by
  induction s with
  | nil => simpa
  | cons a s ih =>
    simp only [List.cons_append, hasSub_cons, Bool.or_eq_true]
    right
    exact ih

theorem hasSub_append_right {pat s : List Char} (t : List Char)
    (h : hasSub pat s = true) : hasSub pat (s ++ t) = true := by
  induction s with
  | nil =>
    simp only [hasSub] at h
    cases pat with
    | nil => cases t <;> simp [hasSub, startsWith]
    | cons p ps => simp [startsWith] at h
  | cons a s ih =>
    simp only [hasSub_cons, Bool.or_eq_true] at h
    simp only [List.cons_append, hasSub_cons, Bool.or_eq_true]
    rcases h with h | h
    · left; exact startsWith_append_ext t h
    · right; exact ih h

theorem hasSub_of_occurrence {pat s u y : List Char} (hs : s = u ++ y)
    (h : startsWith pat y = true) : hasSub pat s = true := by
  subst hs
  apply hasSub_append_left
  cases y with
  | nil =>
    cases pat with
    | nil => simp [hasSub, startsWith]
    | cons p ps => simp [startsWith] at h
  | cons b bs => simp [hasSub, h]

theorem hasSub_short {pat s : List Char} (h : s.length < pat.length) :
    hasSub pat s = false := by
  induction s with
  | nil =>
    cases pat with
    | nil => simp at h
    | cons p ps => simp [hasSub, startsWith]
  | cons a s ih =>
    simp only [hasSub, Bool.or_eq_false_iff]
    constructor
    · by_contra hc
      simp only [Bool.not_eq_false] at hc
      have := startsWith_length hc
      omega
    · exact ih (by simp at h ⊢; omega)

theorem hasSub_concat {pat c : List Char} {x g : Char}
    (h : hasSub pat (c ++ [x]) = true) (hg : pat.getLast? = some g) (hx : g ≠ x) :
    hasSub pat c = true := by
  induction c with
  | nil =>
    simp only [List.nil_append, hasSub, Bool.or_eq_true] at h
    rcases h with h | h
    · rcases startsWith_concat (y := []) (by simpa using h) with h2 | h2
      · cases pat with
        | nil => simp [hasSub, startsWith]
        | cons p ps => simp [startsWith] at h2
      · rw [h2] at hg
        simp at hg
        exact (hx (by simp [hg])).elim
    · cases pat with
      | nil => simp [hasSub, startsWith]
      | cons p ps => simp [hasSub, startsWith] at h
  | cons a c ih =>
    simp only [List.cons_append, hasSub_cons, Bool.or_eq_true] at h
    rcases h with h | h
    · rcases startsWith_concat (y := a :: c) h with h2 | h2
      · simp [hasSub_cons, h2]
      · rw [h2] at hg
        rw [List.getLast?_concat] at hg
        simp at hg
        exact (hx (by simp [hg])).elim
    · have := ih h
      simp [hasSub_cons, this]

theorem dropWhile_dropWhile (p : Char → Bool) (l : List Char) :
    (l.dropWhile p).dropWhile p = l.dropWhile p := by
  induction l with
  | nil => simp
  | cons a l ih =>
    by_cases h : p a
    · simp [List.dropWhile_cons, h, ih]
    · simp [List.dropWhile_cons, h]

theorem hasSub_stripChars {pat l : List Char} (h : hasSub pat (stripChars l) = true) :
    hasSub pat l = true := by
  unfold stripChars at h
  set d := l.dropWhile isSpace with hd
  set e := d.reverse.dropWhile isSpace with he
  have hdec : d.reverse = d.reverse.takeWhile isSpace ++ e := by
    rw [he]; exact (List.takeWhile_append_dropWhile isSpace d.reverse).symm
  have hdeq : d = e.reverse ++ (d.reverse.takeWhile isSpace).reverse := by
    conv_lhs => rw [← List.reverse_reverse d, hdec]
    simp
  have hl : l = l.takeWhile isSpace ++ (e.reverse ++ (d.reverse.takeWhile isSpace).reverse) := by
    rw [← hdeq, hd]; exact (List.takeWhile_append_dropWhile isSpace l).symm
  rw [hl]
  apply hasSub_append_left
  apply hasSub_append_right
  exact h

theorem goodContent_ne_nil {c : List Char} (h : goodContent c = true) : c ≠ [] := by
  intro hc
  subst hc
  simp [goodContent] at h

theorem goodContent_parts {c : List Char} (h : goodContent c = true) :
    (∃ a t, c = a :: t ∧ isSpace a = false) ∧
    (∃ z, c.getLast? = some z ∧ isSpace z = false) ∧ noBd c = true := by
  unfold goodContent at h
  cases hh : c.head? with
  | none => simp [hh] at h
  | some a =>
    cases hg : c.getLast? with
    | none => simp [hh, hg] at h
    | some z =>
      simp only [hh, hg, Bool.and_eq_true, Bool.not_eq_true'] at h
      refine ⟨⟨a, c.tail, ?_, h.1.1⟩, ⟨z, rfl, h.1.2⟩, h.2⟩
      cases c with
      | nil => simp at hh
      | cons x xs => simp at hh; simp [hh]

theorem dropWhile_eq_self_of_head {l : List Char} {a : Char} (h : l.head? = some a)
    (ha : isSpace a = false) : l.dropWhile isSpace = l := by
  cases l with
  | nil => simp at h
  | cons x xs =>
    simp only [List.head?_cons, Option.some.injEq] at h
    subst h
    simp [List.dropWhile_cons, ha]

theorem stripChars_good {c : List Char} (h : goodContent c = true) :
    stripChars c = c := by
  obtain ⟨⟨a, t, hc, ha⟩, ⟨z, hz, hzs⟩, _⟩ := goodContent_parts h
  unfold stripChars
  rw [dropWhile_eq_self_of_head (l := c) (by rw [hc]; rfl) ha]
  rw [dropWhile_eq_self_of_head (l := c.reverse) (by rw [List.head?_reverse]; exact hz) hzs]
  simp

theorem stripChars_concat_nl {c : List Char} (h : goodContent c = true) :
    stripChars (c ++ ['\n']) = c := by
  obtain ⟨⟨a, t, hc, ha⟩, ⟨z, hz, hzs⟩, _⟩ := goodContent_parts h
  unfold stripChars
  rw [dropWhile_eq_self_of_head (l := c ++ ['\n']) (by rw [hc]; rfl) ha]
  rw [List.reverse_append]
  simp only [List.reverse_cons, List.reverse_nil, List.nil_append, List.singleton_append]
  rw [List.dropWhile_cons, if_pos (by decide)]
  rw [dropWhile_eq_self_of_head (by rw [List.head?_reverse]; exact hz) hzs]
  simp

theorem stripChars_dropWhile (l : List Char) :
    stripChars (l.dropWhile isSpace) = stripChars l := by
  unfold stripChars
  rw [dropWhile_dropWhile]

theorem stripChars_all_space {l : List Char} (h : ∀ g ∈ l, isSpace g = true) :
    stripChars l = [] := by
  unfold stripChars
  have : l.dropWhile isSpace = [] := by
    induction l with
    | nil => simp
    | cons a t ih =>
      rw [List.dropWhile_cons, if_pos (h a (by simp))]
      exact ih (fun g hg => h g (by simp [hg]))
  simp [this]

/-! ## Boundary lemmas -/

theorem isBoundary_cons_ne {c : Char} (u : List Char) (h : ¬ c = '\n') :
    isBoundary (c :: u) = false := by
  unfold isBoundary
  split
  · next u' heq =>
    rw [List.cons.injEq] at heq
    exact absurd heq.1 h
  · rfl

theorem splitAtBoundary_cons (c : Char) (cs : List Char) :
    splitAtBoundary (c :: cs) =
      if isBoundary (c :: cs) then ([], c :: cs)
      else (c :: (splitAtBoundary cs).1, (splitAtBoundary cs).2) := rfl

theorem isBoundary_nl (u : List Char) :
    isBoundary ('\n' :: u) = (matchMarker u).isSome := rfl

theorem matchMarker_human (w : List Char) :
    matchMarker (HUMAN_MARKER ++ ':' :: w) = some (HUMAN_MARKER, w) := by
  unfold matchMarker
  have h1 : HUMAN_MARKER ++ ':' :: w = (HUMAN_MARKER ++ [':']) ++ w := by simp
  rw [h1, dropPre_self_append]

theorem matchMarker_ai (w : List Char) :
    matchMarker (AI_MARKER ++ ':' :: w) = some (AI_MARKER, w) := by
  unfold matchMarker
  have h1 : AI_MARKER ++ ':' :: w = (AI_MARKER ++ [':']) ++ w := by simp
  have h2 : dropPre (HUMAN_MARKER ++ [':']) (AI_MARKER ++ ':' :: w) = none := by
    simp [HUMAN_MARKER, AI_MARKER, dropPre]
  rw [h2, h1, dropPre_self_append]

theorem matchMarker_head_ne {c : Char} (u : List Char) (h1 : ¬ c = 'H') (h2 : ¬ c = 'A') :
    matchMarker (c :: u) = none := by
  unfold matchMarker
  have hH : dropPre (HUMAN_MARKER ++ [':']) (c :: u) = none := by
    simp [HUMAN_MARKER, dropPre, h1]
  have hA : dropPre (AI_MARKER ++ [':']) (c :: u) = none := by
    simp [AI_MARKER, dropPre, h2]
  rw [hH, hA]

theorem matchMarker_nl (u : List Char) : matchMarker ('\n' :: u) = none :=
  matchMarker_head_ne u (by decide) (by decide)

theorem tryTurn_head_ne {c : Char} (u : List Char) (h1 : ¬ c = 'H') (h2 : ¬ c = 'A') :
    tryTurn (c :: u) = none := by
  unfold tryTurn
  rw [matchMarker_head_ne u h1 h2]

/-- The start-of-occurrence fact behind the boundary lookahead: if the text
after a `\n` equals a marker, colon and remainder, and the final `\n t'`
part cannot contribute (no marker character is a newline), the marker and
colon lie entirely inside `y'`. -/
theorem markerPrefix_of_eq {M y' u r : List Char}
    (h : y' ++ '\n' :: u = M ++ r) (hM : '\n' ∉ M) : startsWith M y' = true := by
  induction M generalizing y' with
  | nil => simp [startsWith]
  | cons m ms ih =>
    cases y' with
    | nil =>
      simp only [List.nil_append, List.cons_append, List.cons.injEq] at h
      rw [← h.1] at hM
      exact absurd (List.mem_cons_self _ _) hM
    | cons b y'' =>
      simp only [List.cons_append, List.cons.injEq] at h
      obtain ⟨hb, ht⟩ := h
      have hms : '\n' ∉ ms := fun hmem => hM (List.mem_cons_of_mem m hmem)
      subst hb
      have := ih ht hms
      simp [startsWith, this]

theorem isBoundary_suffix_false {c x y t' : List Char}
    (hnb : noBd c = true) (hxy : c = x ++ y) (hy : y ≠ []) :
    isBoundary (y ++ '\n' :: t') = false := by
  cases y with
  | nil => exact absurd rfl hy
  | cons a y2 =>
    by_cases ha : a = '\n'
    · subst ha
      simp only [List.cons_append, isBoundary_nl]
      cases hm : matchMarker (y2 ++ '\n' :: t') with
      | none => rfl
      | some pr =>
        obtain ⟨spk, r⟩ := pr
        exfalso
        have hMeq := matchMarker_eq hm
        unfold noBd at hnb
        simp only [Bool.and_eq_true, Bool.not_eq_true'] at hnb
        rcases hMeq with ⟨_, hs⟩ | ⟨_, hs⟩
        · have hsw : startsWith (HUMAN_MARKER ++ [':']) y2 = true := by
            apply markerPrefix_of_eq (r := r) (u := t')
            · simpa using hs
            · decide
          have : hasSub BD_HUMAN c = true := by
            apply hasSub_of_occurrence (u := x) (y := '\n' :: y2) hxy
            simpa [BD_HUMAN, startsWith] using hsw
          rw [this] at hnb
          exact absurd hnb.1 (by simp)
        · have hsw : startsWith (AI_MARKER ++ [':']) y2 = true := by
            apply markerPrefix_of_eq (r := r) (u := t')
            · simpa using hs
            · decide
          have : hasSub BD_AI c = true := by
            apply hasSub_of_occurrence (u := x) (y := '\n' :: y2) hxy
            simpa [BD_AI, startsWith] using hsw
          rw [this] at hnb
          exact absurd hnb.2 (by simp)
    · simp only [List.cons_append]
      exact isBoundary_cons_ne _ ha

theorem isBoundary_suffix_false_eof {c x y : List Char}
    (hnb : noBd c = true) (hxy : c = x ++ y) (hy : y ≠ []) :
    isBoundary y = false := by
  cases y with
  | nil => exact absurd rfl hy
  | cons a y2 =>
    by_cases ha : a = '\n'
    · subst ha
      rw [isBoundary_nl]
      cases hm : matchMarker y2 with
      | none => rfl
      | some pr =>
        obtain ⟨spk, r⟩ := pr
        exfalso
        have hMeq := matchMarker_eq hm
        unfold noBd at hnb
        simp only [Bool.and_eq_true, Bool.not_eq_true'] at hnb
        rcases hMeq with ⟨_, hs⟩ | ⟨_, hs⟩
        · have : hasSub BD_HUMAN c = true := by
            apply hasSub_of_occurrence (u := x) (y := '\n' :: y2) hxy
            have : startsWith (HUMAN_MARKER ++ [':']) y2 = true := by
              rw [hs]
              have : HUMAN_MARKER ++ ':' :: r = (HUMAN_MARKER ++ [':']) ++ r := by simp
              rw [this]
              exact startsWith_self_append _ _
            simpa [BD_HUMAN, startsWith] using this
          rw [this] at hnb
          exact absurd hnb.1 (by simp)
        · have : hasSub BD_AI c = true := by
            apply hasSub_of_occurrence (u := x) (y := '\n' :: y2) hxy
            have : startsWith (AI_MARKER ++ [':']) y2 = true := by
              rw [hs]
              have : AI_MARKER ++ ':' :: r = (AI_MARKER ++ [':']) ++ r := by simp
              rw [this]
              exact startsWith_self_append _ _
            simpa [BD_AI, startsWith] using this
          rw [this] at hnb
          exact absurd hnb.2 (by simp)
    · exact isBoundary_cons_ne _ ha

/-! ## splitAtBoundary lemmas -/

theorem splitAtBoundary_through {c tail : List Char}
    (h : ∀ x y, c = x ++ y → y ≠ [] → isBoundary (y ++ tail) = false) :
    splitAtBoundary (c ++ tail) =
      (c ++ (splitAtBoundary tail).1, (splitAtBoundary tail).2) := by
  induction c with
  | nil => simp
  | cons a c2 ih =>
    have hhead : isBoundary (a :: (c2 ++ tail)) = false := by
      have := h [] (a :: c2) rfl (by simp)
      simpa using this
    rw [List.cons_append, splitAtBoundary_cons, hhead]
    simp only [Bool.false_eq_true, if_false]
    have ih2 := ih (fun x y hxy hy => h (a :: x) y (by simp [hxy]) hy)
    rw [ih2]
    simp

theorem splitAtBoundary_all_false {l : List Char}
    (h : ∀ x y, l = x ++ y → y ≠ [] → isBoundary y = false) :
    splitAtBoundary l = (l, []) := by
  induction l with
  | nil => simp [splitAtBoundary]
  | cons a l2 ih =>
    have hhead : isBoundary (a :: l2) = false := h [] (a :: l2) rfl (by simp)
    rw [splitAtBoundary_cons, hhead]
    simp only [Bool.false_eq_true, if_false]
    have ih2 := ih (fun x y hxy hy => h (a :: x) y (by simp [hxy]) hy)
    simp [ih2]

theorem splitAtBoundary_checked (l : List Char) :
    ∀ x y, (splitAtBoundary l).1 = x ++ y → y ≠ [] →
      isBoundary (y ++ (splitAtBoundary l).2) = false := by
  induction l with
  | nil =>
    intro x y hxy hy
    simp only [splitAtBoundary] at hxy
    exact absurd (List.append_eq_nil.mp hxy.symm).2 hy
  | cons c cs ih =>
    intro x y hxy hy
    by_cases hb : isBoundary (c :: cs) = true
    · rw [splitAtBoundary_cons, if_pos hb] at hxy
      exact absurd (List.append_eq_nil.mp hxy.symm).2 hy
    · rw [Bool.not_eq_true] at hb
      rw [splitAtBoundary_cons, hb] at hxy ⊢
      simp only [Bool.false_eq_true, if_false] at hxy ⊢
      cases x with
      | nil =>
        simp only [List.nil_append] at hxy
        rw [← hxy]
        have hcc : (c :: (splitAtBoundary cs).1) ++ (splitAtBoundary cs).2 = c :: cs := by
          simp [splitAtBoundary_append_eq cs]
        rw [hcc]
        exact hb
      | cons x0 xs =>
        simp only [List.cons_append, List.cons.injEq] at hxy
        exact ih xs y hxy.2 hy

/-! ## Scanner lemmas -/

theorem goodTurn_iff {t : List Char × List Char} :
    goodTurn t = true ↔
      (t.1 = HUMAN_MARKER ∨ t.1 = AI_MARKER) ∧ goodContent t.2 = true := by
  simp [goodTurn, Bool.and_eq_true, Bool.or_eq_true, decide_eq_true_eq]

theorem scanTurns_true_tryTurn {c : Char} {cs spk raw rest : List Char}
    (h : tryTurn (c :: cs) = some (spk, raw, rest)) :
    scanTurns true (c :: cs) =
      (spk, stripChars raw) :: scanTurns (raw.getLast? == some '\n') rest := by
  rw [scanTurns_cons_true, h]

theorem scanTurns_true_none {c : Char} {cs : List Char}
    (h : tryTurn (c :: cs) = none) :
    scanTurns true (c :: cs) = scanTurns (c = '\n') cs := by
  rw [scanTurns_cons_true, h]

theorem scanTurns_skip {xs : List Char} (hxs : ∀ c ∈ xs, ¬ c = '\n')
    (rest : List Char) :
    scanTurns false (xs ++ '\n' :: rest) = scanTurns true rest := by
  induction xs with
  | nil =>
    rw [List.nil_append, scanTurns_cons_false]
    simp
  | cons x xs ih =>
    rw [List.cons_append, scanTurns_cons_false]
    have hx : ¬ x = '\n' := hxs x (by simp)
    rw [decide_eq_false hx]
    exact ih (fun c hc => hxs c (by simp [hc]))

theorem scanTurns_nl_skip (rest : List Char) :
    scanTurns true ('\n' :: rest) = scanTurns true rest := by
  rw [scanTurns_true_none (tryTurn_head_ne rest (by decide) (by decide))]
  simp

/-- A rendered turn list always begins `speaker ++ ": " ++ …`. -/
theorem renderTurns_cons_shape (t : List Char × List Char)
    (rest : List (List Char × List Char)) :
    ∃ X, renderTurns (t :: rest) = t.1 ++ ':' :: ' ' :: X := by
  cases rest with
  | nil => exact ⟨t.2, rfl⟩
  | cons t2 ts =>
    refine ⟨t.2 ++ '\n' :: '\n' :: renderTurns (t2 :: ts), ?_⟩
    show renderTurn t ++ '\n' :: '\n' :: renderTurns (t2 :: ts) = _
    simp [renderTurn]

theorem matchMarker_isSome_renderTurns {t : List Char × List Char}
    (h : t.1 = HUMAN_MARKER ∨ t.1 = AI_MARKER)
    (rest : List (List Char × List Char)) :
    (matchMarker (renderTurns (t :: rest))).isSome = true := by
  obtain ⟨X, hX⟩ := renderTurns_cons_shape t rest
  rw [hX]
  rcases h with h | h <;> rw [h]
  · rw [matchMarker_human]; rfl
  · rw [matchMarker_ai]; rfl

theorem renderTurns_cons₂ (t : List Char × List Char)
    {l : List (List Char × List Char)} (hl : l ≠ []) :
    renderTurns (t :: l) = renderTurn t ++ '\n' :: '\n' :: renderTurns l := by
  cases l with
  | nil => exact absurd rfl hl
  | cons t2 ts => rfl

theorem renderTurns_append_single {ts : List (List Char × List Char)}
    (hts : ts ≠ []) (t : List Char × List Char) :
    renderTurns (ts ++ [t]) = renderTurns ts ++ '\n' :: '\n' :: renderTurn t := by
  induction ts with
  | nil => exact absurd rfl hts
  | cons t0 ts ih =>
    cases ts with
    | nil => rfl
    | cons t1 ts2 =>
      rw [List.cons_append, renderTurns_cons₂ t0 (by simp),
        renderTurns_cons₂ t0 (by simp : (t1 :: ts2) ≠ []), ih (by simp)]
      simp


theorem goodTurn_pair_iff {spk c : List Char} :
    goodTurn (spk, c) = true ↔
      (spk = HUMAN_MARKER ∨ spk = AI_MARKER) ∧ goodContent c = true := by
  simp [goodTurn, Bool.and_eq_true, Bool.or_eq_true, decide_eq_true_eq]

/-- Scanning one canonical mid-document turn: the content is captured up to
the separating blank line, the trailing newline is stripped away, and the
scan resumes just before the next marker line. -/
theorem scan_cons_general {spk c K : List Char}
    (hg : goodTurn (spk, c) = true)
    (hK : (matchMarker K).isSome = true) :
    scanTurns true (renderTurn (spk, c) ++ '\n' :: '\n' :: K) =
      (spk, c) :: scanTurns true K := by
  obtain ⟨hspk, hgc⟩ := goodTurn_pair_iff.mp hg
  obtain ⟨⟨a, t, hc, ha⟩, _, hnb⟩ := goodContent_parts hgc
  have hshape : renderTurn (spk, c) ++ '\n' :: '\n' :: K =
      spk ++ ':' :: ' ' :: (c ++ '\n' :: '\n' :: K) := by
    simp [renderTurn]
  have hdrop : (' ' :: (c ++ '\n' :: '\n' :: K)).dropWhile isSpace =
      c ++ '\n' :: '\n' :: K := by
    rw [List.dropWhile_cons, if_pos (by decide)]
    exact dropWhile_eq_self_of_head (l := c ++ '\n' :: '\n' :: K)
      (by rw [hc]; rfl) ha
  have hsplit2 : splitAtBoundary ('\n' :: '\n' :: K) = (['\n'], '\n' :: K) := by
    rw [splitAtBoundary_cons]
    rw [if_neg (by rw [isBoundary_nl, matchMarker_nl]; simp)]
    rw [splitAtBoundary_cons]
    rw [if_pos (by rw [isBoundary_nl]; exact hK)]
  have hsplit : splitAtBoundary (c ++ '\n' :: '\n' :: K) = (c ++ ['\n'], '\n' :: K) := by
    rw [@splitAtBoundary_through c ('\n' :: '\n' :: K)
      (fun x y hxy hy => isBoundary_suffix_false hnb hxy hy), hsplit2]
  have httail : tryTurnTail spk (' ' :: (c ++ '\n' :: '\n' :: K)) =
      some (spk, c ++ ['\n'], '\n' :: K) := by
    unfold tryTurnTail
    rw [hdrop]
    cases hcc : c ++ '\n' :: '\n' :: K with
    | nil => simp [hc] at hcc
    | cons b bs =>
      have hsplit3 : splitAtBoundary (b :: bs) = (c ++ ['\n'], '\n' :: K) := by
        rw [← hcc]; exact hsplit
      show some (spk, (splitAtBoundary (b :: bs)).1, (splitAtBoundary (b :: bs)).2) = _
      rw [hsplit3]
  rw [hshape]
  rcases hspk with h | h <;> subst h
  · have hl : HUMAN_MARKER ++ ':' :: ' ' :: (c ++ '\n' :: '\n' :: K) =
        'H' :: ('u' :: 'm' :: 'a' :: 'n' :: ':' :: ' ' :: (c ++ '\n' :: '\n' :: K)) := rfl
    have htt : tryTurn ('H' :: ('u' :: 'm' :: 'a' :: 'n' :: ':' :: ' ' ::
        (c ++ '\n' :: '\n' :: K))) = some (HUMAN_MARKER, c ++ ['\n'], '\n' :: K) := by
      rw [← hl]
      unfold tryTurn
      rw [matchMarker_human]
      exact httail
    rw [hl, scanTurns_true_tryTurn htt, stripChars_concat_nl hgc,
      List.getLast?_concat, beq_self_eq_true, scanTurns_nl_skip]
  · have hl : AI_MARKER ++ ':' :: ' ' :: (c ++ '\n' :: '\n' :: K) =
        'A' :: ('I' :: ':' :: ' ' :: (c ++ '\n' :: '\n' :: K)) := rfl
    have htt : tryTurn ('A' :: ('I' :: ':' :: ' ' ::
        (c ++ '\n' :: '\n' :: K))) = some (AI_MARKER, c ++ ['\n'], '\n' :: K) := by
      rw [← hl]
      unfold tryTurn
      rw [matchMarker_ai]
      exact httail
    rw [hl, scanTurns_true_tryTurn htt, stripChars_concat_nl hgc,
      List.getLast?_concat, beq_self_eq_true, scanTurns_nl_skip]

theorem getLast?_all {l : List Char} {g : Char} {p : Char → Bool}
    (hall : ∀ x ∈ l, p x = true) (h : l.getLast? = some g) : p g = true := by
  have hm : g ∈ l.getLast? := by simp [h]
  obtain ⟨hne, hg⟩ := List.mem_getLast?_eq_getLast hm
  subst hg
  exact hall _ (List.getLast_mem hne)

/-- Scanning the final turn of the document when nothing follows it: the
content runs to the end of the text and is stripped.  This covers both the
normal case and the whitespace-only case (where the regex backtracks and
captures a single whitespace character, which strips to the same result). -/
theorem scan_last_eof {spk y : List Char}
    (hspk : spk = HUMAN_MARKER ∨ spk = AI_MARKER) (hnb : noBd y = true) :
    scanTurns true (renderTurn (spk, y)) = [(spk, stripChars y)] := by
  have httail : ∃ raw, tryTurnTail spk (' ' :: y) = some (spk, raw, []) ∧
      stripChars raw = stripChars y := by
    cases hb : y.dropWhile isSpace with
    | nil =>
      have hall : ∀ x ∈ y, isSpace x = true := List.dropWhile_eq_nil_iff.mp hb
      have hdrop : (' ' :: y).dropWhile isSpace = [] := by
        rw [List.dropWhile_cons, if_pos (by decide)]
        exact hb
      have htake : (' ' :: y).takeWhile isSpace = ' ' :: y := by
        rw [List.takeWhile_eq_self_iff]
        intro x hx
        rcases List.mem_cons.mp hx with rfl | hx
        · decide
        · exact hall x hx
      have hg : (' ' :: y).getLast? = some ((' ' :: y).getLast (by simp)) :=
        List.getLast?_eq_getLast_of_ne_nil (by simp)
      refine ⟨[(' ' :: y).getLast (by simp)], ?_, ?_⟩
      · unfold tryTurnTail
        rw [hdrop, htake, hg]
      · have hgs : isSpace ((' ' :: y).getLast (by simp)) = true := by
          apply getLast?_all (l := ' ' :: y) _ hg
          intro x hx
          rcases List.mem_cons.mp hx with rfl | hx
          · decide
          · exact hall x hx
        rw [stripChars_all_space (by intro g hg2; simp at hg2; rw [hg2]; exact hgs),
          stripChars_all_space hall]
    | cons b bs =>
      have hdrop : (' ' :: y).dropWhile isSpace = b :: bs := by
        rw [List.dropWhile_cons, if_pos (by decide)]
        exact hb
      have hdec : y = y.takeWhile isSpace ++ (b :: bs) := by
        rw [← hb]
        exact (List.takeWhile_append_dropWhile isSpace y).symm
      have hsplit : splitAtBoundary (b :: bs) = (b :: bs, []) := by
        apply splitAtBoundary_all_false
        intro x y2 hxy hy2
        exact isBoundary_suffix_false_eof hnb
          (by rw [hdec, hxy, ← List.append_assoc]) hy2
      refine ⟨b :: bs, ?_, ?_⟩
      · unfold tryTurnTail
        rw [hdrop]
        show some (spk, (splitAtBoundary (b :: bs)).1, (splitAtBoundary (b :: bs)).2) = _
        rw [hsplit]
      · rw [← hb, stripChars_dropWhile]
  obtain ⟨raw, htt, hst⟩ := httail
  rcases hspk with h | h <;> subst h
  · have hl : renderTurn (HUMAN_MARKER, y) =
        'H' :: ('u' :: 'm' :: 'a' :: 'n' :: ':' :: ' ' :: y) := rfl
    have htt2 : tryTurn ('H' :: ('u' :: 'm' :: 'a' :: 'n' :: ':' :: ' ' :: y)) =
        some (HUMAN_MARKER, raw, []) := by
      rw [← hl]
      show tryTurn (HUMAN_MARKER ++ ':' :: (' ' :: y)) = _
      unfold tryTurn
      rw [matchMarker_human]
      exact htt
    rw [hl, scanTurns_true_tryTurn htt2, hst, scanTurns_nil]
  · have hl : renderTurn (AI_MARKER, y) = 'A' :: ('I' :: ':' :: ' ' :: y) := rfl
    have htt2 : tryTurn ('A' :: ('I' :: ':' :: ' ' :: y)) =
        some (AI_MARKER, raw, []) := by
      rw [← hl]
      show tryTurn (AI_MARKER ++ ':' :: (' ' :: y)) = _
      unfold tryTurn
      rw [matchMarker_ai]
      exact htt
    rw [hl, scanTurns_true_tryTurn htt2, hst, scanTurns_nil]

theorem matchMarker_isSome_renderTurns_append
    {ts : List (List Char × List Char)} {spk y : List Char}
    (hg : ∀ t ∈ ts, goodTurn t = true)
    (hspk : spk = HUMAN_MARKER ∨ spk = AI_MARKER) :
    (matchMarker (renderTurns (ts ++ [(spk, y)]))).isSome = true := by
  cases ts with
  | nil => exact matchMarker_isSome_renderTurns (t := (spk, y)) hspk []
  | cons u us =>
    rw [List.cons_append]
    exact matchMarker_isSome_renderTurns (goodTurn_iff.mp (hg u (by simp))).1 _

/-- Scanning a canonical rendered turn list whose final turn may carry
arbitrary marker-free content and runs to the end of the text. -/
theorem scan_turns_eof (ts : List (List Char × List Char)) {spk y : List Char}
    (hg : ∀ t ∈ ts, goodTurn t = true)
    (hspk : spk = HUMAN_MARKER ∨ spk = AI_MARKER) (hnb : noBd y = true) :
    scanTurns true (renderTurns (ts ++ [(spk, y)])) = ts ++ [(spk, stripChars y)] := by
  induction ts with
  | nil => simpa using scan_last_eof hspk hnb
  | cons t ts ih =>
    obtain ⟨t1, t2⟩ := t
    rw [List.cons_append, renderTurns_cons₂ (t1, t2) (by simp)]
    rw [scan_cons_general (hg (t1, t2) (by simp))
      (matchMarker_isSome_renderTurns_append (fun u hu => hg u (by simp [hu])) hspk)]
    rw [ih (fun u hu => hg u (by simp [hu]))]
    simp

/-! ## Header lemmas -/

theorem isToken_parts {t : List Char} (h : isToken t = true) :
    t ≠ [] ∧ ∀ c ∈ t, isSpace c = false := by
  unfold isToken at h
  simp only [Bool.and_eq_true, Bool.not_eq_true', List.all_eq_true] at h
  exact ⟨by cases t <;> simp_all, h.2⟩

theorem token_no_nl {t : List Char} (h : isToken t = true) :
    ∀ c ∈ t, ¬ c = '\n' := by
  intro c hc he
  subst he
  have := (isToken_parts h).2 _ hc
  simp [isSpace] at this

theorem scanTurns_header_line {c0 : Char} {cs0 tok rest : List Char}
    (hc0H : ¬ c0 = 'H') (hc0A : ¬ c0 = 'A') (hc0n : ¬ c0 = '\n')
    (hcs0 : ∀ c ∈ cs0, ¬ c = '\n') (htok : isToken tok = true) :
    scanTurns true (c0 :: (cs0 ++ (tok ++ '\n' :: rest))) = scanTurns true rest := by
  rw [scanTurns_true_none (tryTurn_head_ne _ hc0H hc0A)]
  rw [decide_eq_false hc0n]
  have hassoc : cs0 ++ (tok ++ '\n' :: rest) = (cs0 ++ tok) ++ '\n' :: rest := by simp
  rw [hassoc]
  exact scanTurns_skip (fun c hc => by
    rcases List.mem_append.mp hc with hc | hc
    · exact hcs0 c hc
    · exact token_no_nl htok c hc) rest

theorem scanTurns_headersOf (m b : List Char) (hm : isToken m = true)
    (hb : isToken b = true) (R : List Char) :
    scanTurns true (headersOf m b ++ R) = scanTurns true R := by
  have h1 : headersOf m b ++ R =
      'm' :: (['o', 'd', 'e', 'l', ':', ' '] ++ (m ++ '\n' ::
        ('b' :: (['e', 'h', 'a', 'v', 'i', 'o', 'r', ':', ' '] ++
          (b ++ '\n' :: ('\n' :: R)))))) := by
    simp [headersOf]
  rw [h1]
  rw [scanTurns_header_line (by decide) (by decide) (by decide)
    (by intro c hc; fin_cases hc <;> decide) hm]
  rw [scanTurns_header_line (by decide) (by decide) (by decide)
    (by intro c hc; fin_cases hc <;> decide) hb]
  exact scanTurns_nl_skip R

theorem takeWhile_token {m : List Char} (hm : ∀ c ∈ m, isSpace c = false)
    (R : List Char) :
    (m ++ '\n' :: R).takeWhile (fun c => !isSpace c) = m := by
  induction m with
  | nil =>
    rw [List.nil_append, List.takeWhile_cons]
    simp [isSpace]
  | cons a t ih =>
    rw [List.cons_append, List.takeWhile_cons]
    rw [if_pos (by simp [hm a (by simp)])]
    rw [ih (fun c hc => hm c (by simp [hc]))]

theorem grabToken_token {m : List Char} (hm : isToken m = true) (R : List Char) :
    grabToken (' ' :: (m ++ '\n' :: R)) = some m := by
  obtain ⟨hne, hall⟩ := isToken_parts hm
  unfold grabToken
  rw [List.dropWhile_cons, if_pos (by decide)]
  cases m with
  | nil => exact absurd rfl hne
  | cons a t =>
    rw [dropWhile_eq_self_of_head (l := (a :: t) ++ '\n' :: R) rfl
      (hall a (by simp))]
    rw [takeWhile_token hall R]

theorem searchHeaderFrom_cons_true (kw : List Char) (c : Char) (cs : List Char) :
    searchHeaderFrom kw true (c :: cs) =
      (match tryHeader kw (c :: cs) with
      | some t => some t
      | none => searchHeaderFrom kw (c = '\n') cs) := rfl

theorem searchHeaderFrom_cons_false (kw : List Char) (c : Char) (cs : List Char) :
    searchHeaderFrom kw false (c :: cs) = searchHeaderFrom kw (c = '\n') cs := rfl

theorem tryHeader_none_head {k c : Char} (ks cs : List Char) (h : ¬ c = k) :
    tryHeader (k :: ks) (c :: cs) = none := by
  unfold tryHeader
  rw [show dropPre (k :: ks) (c :: cs) = none from by simp [dropPre, h]]

theorem searchHeaderFrom_skip (kw : List Char) {xs : List Char}
    (hxs : ∀ c ∈ xs, ¬ c = '\n') (rest : List Char) :
    searchHeaderFrom kw false (xs ++ '\n' :: rest) = searchHeaderFrom kw true rest := by
  induction xs with
  | nil =>
    rw [List.nil_append, searchHeaderFrom_cons_false]
    simp
  | cons x xs ih =>
    rw [List.cons_append, searchHeaderFrom_cons_false]
    rw [decide_eq_false (hxs x (by simp))]
    exact ih (fun c hc => hxs c (by simp [hc]))

theorem tryHeader_model (m : List Char) (hm : isToken m = true) (X : List Char) :
    tryHeader MODEL_KW (MODEL_KW ++ ' ' :: (m ++ '\n' :: X)) = some m := by
  unfold tryHeader
  rw [dropPre_self_append]
  exact grabToken_token hm X

theorem tryHeader_behavior (b : List Char) (hb : isToken b = true) (X : List Char) :
    tryHeader BEHAVIOR_KW (BEHAVIOR_KW ++ ' ' :: (b ++ '\n' :: X)) = some b := by
  unfold tryHeader
  rw [dropPre_self_append]
  exact grabToken_token hb X

theorem searchHeader_model_headersOf (m b : List Char) (hm : isToken m = true)
    (R : List Char) :
    searchHeader MODEL_KW (headersOf m b ++ R) = some m := by
  have h1 : headersOf m b ++ R =
      MODEL_KW ++ ' ' :: (m ++ '\n' ::
        (['b', 'e', 'h', 'a', 'v', 'i', 'o', 'r', ':', ' '] ++ b ++ '\n' :: '\n' :: R)) := by
    simp [headersOf, MODEL_KW]
  rw [h1]
  unfold searchHeader
  show searchHeaderFrom MODEL_KW true ('m' :: ('o' :: 'd' :: 'e' :: 'l' :: ':' :: ' ' ::
    (m ++ '\n' :: (['b', 'e', 'h', 'a', 'v', 'i', 'o', 'r', ':', ' '] ++ b ++ '\n' :: '\n' :: R)))) = some m
  rw [searchHeaderFrom_cons_true]
  rw [show ('m' :: ('o' :: 'd' :: 'e' :: 'l' :: ':' :: ' ' ::
    (m ++ '\n' :: (['b', 'e', 'h', 'a', 'v', 'i', 'o', 'r', ':', ' '] ++ b ++ '\n' :: '\n' :: R)))) =
    MODEL_KW ++ ' ' :: (m ++ '\n' ::
      (['b', 'e', 'h', 'a', 'v', 'i', 'o', 'r', ':', ' '] ++ b ++ '\n' :: '\n' :: R)) from rfl]
  rw [tryHeader_model m hm]

theorem searchHeader_behavior_headersOf (m b : List Char) (hm : isToken m = true)
    (hb : isToken b = true) (R : List Char) :
    searchHeader BEHAVIOR_KW (headersOf m b ++ R) = some b := by
  have h1 : headersOf m b ++ R =
      'm' :: ((['o', 'd', 'e', 'l', ':', ' '] ++ m) ++ '\n' ::
        (BEHAVIOR_KW ++ ' ' :: (b ++ '\n' :: ('\n' :: R)))) := by
    simp [headersOf, BEHAVIOR_KW]
  rw [h1]
  unfold searchHeader
  rw [searchHeaderFrom_cons_true]
  rw [show tryHeader BEHAVIOR_KW
    ('m' :: (['o', 'd', 'e', 'l', ':', ' '] ++ m ++ '\n' ::
      (BEHAVIOR_KW ++ ' ' :: (b ++ '\n' :: ('\n' :: R))))) = none from
    tryHeader_none_head _ _ (by decide)]
  rw [decide_eq_false (by decide)]
  rw [searchHeaderFrom_skip BEHAVIOR_KW (by
    intro c hc
    simp only [List.mem_append] at hc
    rcases hc with hc | hc
    · fin_cases hc <;> decide
    · exact token_no_nl hm c hc)]
  cases hBK : BEHAVIOR_KW ++ ' ' :: (b ++ '\n' :: ('\n' :: R)) with
  | nil => simp [BEHAVIOR_KW] at hBK
  | cons c cs =>
    rw [searchHeaderFrom_cons_true]
    rw [← hBK, tryHeader_behavior b hb]

theorem noBd_concat_nl {c : List Char} (h : noBd c = true) : noBd (c ++ ['\n']) = true := by
  unfold noBd at *
  simp only [Bool.and_eq_true, Bool.not_eq_true'] at *
  constructor
  · by_contra hc
    simp only [Bool.not_eq_false] at hc
    have h2 := @hasSub_concat BD_HUMAN c '\n' ':' hc (by decide) (by decide)
    rw [h2] at h
    exact absurd h.1 (by simp)
  · by_contra hc
    simp only [Bool.not_eq_false] at hc
    have h2 := @hasSub_concat BD_AI c '\n' ':' hc (by decide) (by decide)
    rw [h2] at h
    exact absurd h.2 (by simp)

theorem mem_of_getLast? {α : Type} {l : List α} {a : α} (h : l.getLast? = some a) :
    a ∈ l := by
  have hm : a ∈ l.getLast? := by simp [h]
  obtain ⟨hne, hg⟩ := List.mem_getLast?_eq_getLast hm
  subst hg
  exact List.getLast_mem hne

theorem ne_nil_of_getLast? {α : Type} {l : List α} {a : α} (h : l.getLast? = some a) :
    l ≠ [] := by
  intro hl
  subst hl
  simp at h

theorem renderTurns_snoc_nl {ts : List (List Char × List Char)}
    {lspk lc : List Char} (hlast : ts.getLast? = some (lspk, lc)) :
    renderTurns ts ++ ['\n'] = renderTurns (ts.dropLast ++ [(lspk, lc ++ ['\n'])]) := by
  have hdec : ts.dropLast ++ [(lspk, lc)] = ts :=
    List.dropLast_append_getLast? _ (by simp [hlast])
  conv_lhs => rw [← hdec]
  cases hdl : ts.dropLast with
  | nil =>
    show renderTurn (lspk, lc) ++ ['\n'] = renderTurn (lspk, lc ++ ['\n'])
    simp [renderTurn]
  | cons d ds =>
    rw [renderTurns_append_single (by simp), renderTurns_append_single (by simp)]
    simp [renderTurn]

/-- The conversation extracted from a canonical rendered dialog file is
exactly the rendered turn list. -/
theorem scan_renderDialog {m b : List Char} {ts : List (List Char × List Char)}
    {lspk lc : List Char}
    (hm : isToken m = true) (hb : isToken b = true)
    (hg : ∀ t ∈ ts, goodTurn t = true)
    (hlast : ts.getLast? = some (lspk, lc)) :
    scanTurns true (renderDialog m b ts) = ts := by
  have hts : ts ≠ [] := ne_nil_of_getLast? hlast
  have hmem : (lspk, lc) ∈ ts := mem_of_getLast? hlast
  have hgl := goodTurn_pair_iff.mp (hg _ hmem)
  unfold renderDialog
  rw [show headersOf m b ++ renderTurns ts ++ ['\n'] =
    headersOf m b ++ (renderTurns ts ++ ['\n']) from by simp]
  rw [scanTurns_headersOf m b hm hb]
  rw [renderTurns_snoc_nl hlast]
  rw [scan_turns_eof ts.dropLast
    (fun t ht => hg t ((List.dropLast_sublist ts).subset ht))
    hgl.1 (noBd_concat_nl (goodContent_parts hgl.2).2.2)]
  rw [stripChars_concat_nl hgl.2]
  exact List.dropLast_append_getLast? _ (by simp [hlast])

theorem parse_model_headersOf {reg : Registry} {m b : List Char}
    (hm : isToken m = true) (R : List Char)
    (hmr : memStr m reg.models = true) :
    parse_model_from_dialog reg (headersOf m b ++ R) = .ok m := by
  unfold parse_model_from_dialog
  rw [searchHeader_model_headersOf m b hm R]
  show (if is_model_valid reg m = true then Except.ok m
    else Except.error (DialogError.unsupportedModel m)) = Except.ok m
  unfold is_model_valid
  rw [hmr]
  simp

theorem parse_behavior_headersOf {reg : Registry} {m b : List Char}
    {rec : BehaviorRecord}
    (hm : isToken m = true) (hb : isToken b = true) (R : List Char)
    (hbr : lookupB reg.behaviors b = some rec) (htr : rec.truthy = true) :
    parse_behavior_from_dialog reg (headersOf m b ++ R) =
      .ok (rec.description, rec.temperature) := by
  unfold parse_behavior_from_dialog
  rw [searchHeader_behavior_headersOf m b hm hb R]
  show (if is_behavior_valid reg b = true then
      (match lookupB reg.behaviors b with
      | some rec =>
        if rec.truthy = true then Except.ok (rec.description, rec.temperature)
        else Except.error (DialogError.corruptBehaviorData b)
      | none => Except.error (DialogError.corruptBehaviorData b))
    else Except.error (DialogError.unsupportedBehavior b)) = _
  unfold is_behavior_valid
  rw [hbr]
  simp [htr]

theorem parse_conversation_eq (content : List Char) :
    parse_conversation_from_dialog content =
      (match (scanTurns true content).getLast? with
      | none => .error .emptyOrMissingFinalTurn
      | some (spk, statement) =>
        if spk = HUMAN_MARKER ∧ statement ≠ [] then .ok (scanTurns true content)
        else .error .emptyOrMissingFinalTurn) := rfl

/-- Parsing a canonical rendered dialog file succeeds and reconstructs the
model, the behavior data and the exact turn list. -/
theorem parse_content_canonical {reg : Registry} {m b : List Char}
    {ts : List (List Char × List Char)} {rec : BehaviorRecord} {lspk lc : List Char}
    (hm : isToken m = true) (hb : isToken b = true)
    (hmr : memStr m reg.models = true)
    (hbr : lookupB reg.behaviors b = some rec) (htr : rec.truthy = true)
    (hg : ∀ t ∈ ts, goodTurn t = true)
    (hlast : ts.getLast? = some (lspk, lc)) (hspk : lspk = HUMAN_MARKER) :
    parse_dialog_content reg (renderDialog m b ts) =
      .ok { model := m, temperature := rec.temperature,
            behavior_description := rec.description, conversation := ts } := by
  have hren : renderDialog m b ts = headersOf m b ++ (renderTurns ts ++ ['\n']) := by
    simp [renderDialog]
  have hconv : parse_conversation_from_dialog (renderDialog m b ts) = .ok ts := by
    rw [parse_conversation_eq, scan_renderDialog hm hb hg hlast, hlast]
    have hlc : lc ≠ [] :=
      goodContent_ne_nil (goodTurn_pair_iff.mp (hg _ (mem_of_getLast? hlast))).2
    show (if lspk = HUMAN_MARKER ∧ lc ≠ [] then Except.ok ts
      else Except.error DialogError.emptyOrMissingFinalTurn) = Except.ok ts
    rw [if_pos ⟨hspk, hlc⟩]
  unfold parse_dialog_content
  rw [hren, parse_model_headersOf hm _ hmr, parse_behavior_headersOf hm hb _ hbr htr,
    ← hren, hconv]

/-! ## No interior marker boundary in any scanned content (C4 machinery) -/

theorem stripChars_single (c : Char) :
    stripChars [c] = if isSpace c then [] else [c] := by
  by_cases h : isSpace c <;>
    simp [stripChars, List.dropWhile_cons, h]

theorem hasSub_exists {pat s : List Char} (h : hasSub pat s = true) :
    ∃ u y, s = u ++ y ∧ startsWith pat y = true := by
  induction s with
  | nil => exact ⟨[], [], rfl, by simpa [hasSub] using h⟩
  | cons c cs ih =>
    rw [hasSub_cons, Bool.or_eq_true] at h
    rcases h with h | h
    · exact ⟨[], c :: cs, rfl, h⟩
    · obtain ⟨u, y, rfl, hy⟩ := ih h
      exact ⟨c :: u, y, rfl, hy⟩

theorem startsWith_ne_nil {pat y : List Char} (hp : pat ≠ [])
    (h : startsWith pat y = true) : y ≠ [] := by
  intro hy
  subst hy
  cases pat with
  | nil => exact hp rfl
  | cons p ps => simp [startsWith] at h

theorem isBoundary_of_startsWith_BDH {y : List Char}
    (h : startsWith BD_HUMAN y = true) (rest : List Char) :
    isBoundary (y ++ rest) = true := by
  obtain ⟨z, rfl⟩ := startsWith_eq_append h
  have hsh : BD_HUMAN ++ z ++ rest =
      '\n' :: (HUMAN_MARKER ++ ':' :: (z ++ rest)) := by
    simp [BD_HUMAN]
  rw [hsh, isBoundary_nl, matchMarker_human]
  rfl

theorem isBoundary_of_startsWith_BDA {y : List Char}
    (h : startsWith BD_AI y = true) (rest : List Char) :
    isBoundary (y ++ rest) = true := by
  obtain ⟨z, rfl⟩ := startsWith_eq_append h
  have hsh : BD_AI ++ z ++ rest = '\n' :: (AI_MARKER ++ ':' :: (z ++ rest)) := by
    simp [BD_AI]
  rw [hsh, isBoundary_nl, matchMarker_ai]
  rfl

theorem tryTurn_raw_free {s spk raw rest : List Char}
    (h : tryTurn s = some (spk, raw, rest)) :
    hasSub BD_HUMAN (stripChars raw) = false ∧
      hasSub BD_AI (stripChars raw) = false := by
  unfold tryTurn at h
  cases hm : matchMarker s with
  | none => simp [hm] at h
  | some pr =>
    obtain ⟨spk0, r⟩ := pr
    simp only [hm] at h
    unfold tryTurnTail at h
    cases hd : r.dropWhile isSpace with
    | nil =>
      simp only [hd] at h
      cases hg : (r.takeWhile isSpace).getLast? with
      | none => simp [hg] at h
      | some c0 =>
        simp only [hg, Option.some.injEq, Prod.mk.injEq] at h
        obtain ⟨rfl, rfl, rfl⟩ := h
        constructor <;>
        · apply hasSub_short
          rw [stripChars_single]
          by_cases hsp : isSpace c0 <;> simp [hsp, BD_HUMAN, BD_AI, HUMAN_MARKER, AI_MARKER]
    | cons b bs =>
      simp only [hd, Option.some.injEq, Prod.mk.injEq] at h
      obtain ⟨rfl, rfl, rfl⟩ := h
      constructor
      · by_contra hc
        rw [Bool.not_eq_false] at hc
        obtain ⟨u, y, ha, hy⟩ := hasSub_exists (hasSub_stripChars hc)
        have hb := splitAtBoundary_checked (b :: bs) u y ha
          (startsWith_ne_nil (by simp [BD_HUMAN]) hy)
        rw [isBoundary_of_startsWith_BDH hy _] at hb
        exact absurd hb (by simp)
      · by_contra hc
        rw [Bool.not_eq_false] at hc
        obtain ⟨u, y, ha, hy⟩ := hasSub_exists (hasSub_stripChars hc)
        have hb := splitAtBoundary_checked (b :: bs) u y ha
          (startsWith_ne_nil (by simp [BD_AI]) hy)
        rw [isBoundary_of_startsWith_BDA hy _] at hb
        exact absurd hb (by simp)

theorem scan_no_boundary_aux (fuel : Nat) :
    ∀ b s spk c, (spk, c) ∈ scanTurnsF fuel b s →
      hasSub BD_HUMAN c = false ∧ hasSub BD_AI c = false := by
  induction fuel with
  | zero =>
    intro b s spk c h
    simp [scanTurnsF] at h
  | succ f ih =>
    intro b s spk c h
    cases s with
    | nil => simp [scanTurnsF] at h
    | cons x xs =>
      simp only [scanTurnsF] at h
      cases b with
      | false =>
        simp only [Bool.false_eq_true, if_false] at h
        exact ih _ _ _ _ h
      | true =>
        simp only [if_pos rfl] at h
        cases ht : tryTurn (x :: xs) with
        | some tr =>
          obtain ⟨spk0, raw, rest⟩ := tr
          rw [ht] at h
          cases h with
          | head => exact tryTurn_raw_free ht
          | tail _ h0 => exact ih _ _ _ _ h0
        | none =>
          rw [ht] at h
          exact ih _ _ _ _ h

/-! ## Concrete instances for witnesses and counterexamples -/

def stdTemp : Rat := mkRat 7 10

def stdRec : BehaviorRecord :=
  { description := some (("You are helpful.").data), temperature := some stdTemp,
    otherFields := 0 }

/-- The registry of the spec's example scenario: one model `gpt-4o`, one
behavior `default` with description `You are helpful.` and temperature 0.7. -/
def stdReg : Registry :=
  { models := [("gpt-4o").data],
    behaviors := [((("default").data), stdRec)] }

def stdDc : DefaultConfig :=
  { default_model := ("gpt-4o").data, default_behavior := ("default").data }

/-- The example file of the spec: `model: gpt-4o\nbehavior: default\n\nHuman: Hi\n`. -/
def exampleFile : List Char := ("model: gpt-4o\nbehavior: default\n\nHuman: Hi\n").data

def helloFragments : List (List Char) := [("Hello").data, (", ").data, ("world.").data]

/-! ## Shape of appended files -/

theorem appendFull_shape {m b : List Char} {ts : List (List Char × List Char)}
    (hts : ts ≠ []) (frags : List (List Char)) :
    appendFullContent (renderDialog m b ts) frags =
      headersOf m b ++ renderTurns ((ts ++ [(AI_MARKER, joinL frags)]) ++ [(HUMAN_MARKER, [])]) := by
  rw [renderTurns_append_single (by simp), renderTurns_append_single hts]
  simp [appendFullContent, renderDialog, renderTurn, COLON_SPACE]

theorem appendInterrupted_shape {m b : List Char} {ts : List (List Char × List Char)}
    (hts : ts ≠ []) (ys : List (List Char)) :
    appendInterruptedContent (renderDialog m b ts) ys =
      headersOf m b ++ renderTurns (ts ++ [(AI_MARKER, joinL ys)]) := by
  rw [renderTurns_append_single hts]
  simp [appendInterruptedContent, renderDialog, renderTurn, COLON_SPACE]

theorem FS.read_write_self (fs : FS) (p c : List Char) :
    (fs.write p c).read p = some c := by
  simp [FS.read, FS.write, lookupF]

/-! ## Claims -/

/-- C1 (amended): for every canonically rendered dialog file — header tokens
are nonempty non-whitespace runs, the model is registry-known, the behavior
record carries data, every turn content is nonempty, whitespace-trimmed and
free of embedded marker lines, and the final turn is a Human turn —
`parse_dialog_file` succeeds and returns the model name, the behavior's
description and temperature, and the exact ordered turn sequence.  (The
original claim, without the nonempty-content requirement on every turn,
fails: see the counterexample, where a whitespace-only turn makes the regex
absorb the following marker line.) -/
theorem C1_parse_canonical {reg : Registry} {m b : List Char}
    {ts : List (List Char × List Char)} {rec : BehaviorRecord} {lspk lc : List Char}
    (hm : isToken m = true) (hb : isToken b = true)
    (hmr : memStr m reg.models = true)
    (hbr : lookupB reg.behaviors b = some rec) (htr : rec.truthy = true)
    (hg : ∀ t ∈ ts, goodTurn t = true)
    (hlast : ts.getLast? = some (lspk, lc)) (hspk : lspk = HUMAN_MARKER) :
    parse_dialog_content reg (renderDialog m b ts) =
      .ok { model := m, temperature := rec.temperature,
            behavior_description := rec.description, conversation := ts } :=
  parse_content_canonical hm hb hmr hbr htr hg hlast hspk

/-- C1 witness: the spec's example scenario, evaluated concretely. -/
theorem C1_parse_canonical_witness :
    (isToken (("gpt-4o").data) = true ∧ isToken (("default").data) = true ∧
      memStr (("gpt-4o").data) stdReg.models = true ∧
      lookupB stdReg.behaviors (("default").data) = some stdRec ∧
      stdRec.truthy = true ∧
      (∀ t ∈ [(HUMAN_MARKER, ("Hi").data)], goodTurn t = true) ∧
      ([(HUMAN_MARKER, ("Hi").data)]).getLast? = some (HUMAN_MARKER, ("Hi").data)) ∧
    renderDialog (("gpt-4o").data) (("default").data) [(HUMAN_MARKER, ("Hi").data)] =
      exampleFile ∧
    parse_dialog_content stdReg
      (renderDialog (("gpt-4o").data) (("default").data) [(HUMAN_MARKER, ("Hi").data)]) =
      .ok { model := ("gpt-4o").data, temperature := some stdTemp,
            behavior_description := some (("You are helpful.").data),
            conversation := [(HUMAN_MARKER, ("Hi").data)] } :=
  ⟨⟨by decide, by decide, by decide, by decide, by decide, by decide, by decide⟩,
    by decide,
    @C1_parse_canonical stdReg (("gpt-4o").data) (("default").data)
      [(HUMAN_MARKER, ("Hi").data)] stdRec HUMAN_MARKER (("Hi").data)
      (by decide) (by decide) (by decide) (by decide) (by decide)
      (by decide) (by decide) (by decide)⟩

/-- C1 counterexample: the claim as frozen fails on a file whose marker-run
sequence is (Human, empty), (AI, `x`), (Human, `hi`): the greedy `\s*` of
the conversation regex crosses the newline after the empty Human turn and
the following `AI: x` line is absorbed into the Human turn's content, so
the parse returns two Human turns instead of the three marker runs. -/
theorem C1_empty_turn_merge_cx :
    parse_dialog_content stdReg
      (("model: gpt-4o\nbehavior: default\n\nHuman:\nAI: x\nHuman: hi\n").data) =
      .ok { model := ("gpt-4o").data, temperature := some stdTemp,
            behavior_description := some (("You are helpful.").data),
            conversation := [(HUMAN_MARKER, ("AI: x").data),
              (HUMAN_MARKER, ("hi").data)] } := by decide

/-- C2 (amended): appending the fragment sequence `Hello`, `, `, `world.`
to a canonical well-formed dialog file yields a file whose regex-extracted
turn sequence ends with an AI turn `Hello, world.` followed by a Human
turn with empty content; re-parsing that file does not return this
conversation but fails the final-turn invariant (the last turn's content is
empty), which is what the code's `parse_dialog_file` does with it.  (The
original claim, that re-parsing *yields* such a conversation, fails: see
the counterexample.) -/
theorem C2_append_then_reparse {reg : Registry} {m b : List Char}
    {ts : List (List Char × List Char)} {rec : BehaviorRecord} {lspk lc : List Char}
    (hm : isToken m = true) (hb : isToken b = true)
    (hmr : memStr m reg.models = true)
    (hbr : lookupB reg.behaviors b = some rec) (htr : rec.truthy = true)
    (hg : ∀ t ∈ ts, goodTurn t = true)
    (hlast : ts.getLast? = some (lspk, lc)) (hspk : lspk = HUMAN_MARKER) :
    scanTurns true (appendFullContent (renderDialog m b ts) helloFragments) =
      ts ++ [(AI_MARKER, ("Hello, world.").data), (HUMAN_MARKER, [])] ∧
    parse_dialog_content reg (appendFullContent (renderDialog m b ts) helloFragments) =
      .error .emptyOrMissingFinalTurn := by
  have hts : ts ≠ [] := ne_nil_of_getLast? hlast
  have hjoin : joinL helloFragments = ("Hello, world.").data := by decide
  have hg2 : ∀ t ∈ ts ++ [(AI_MARKER, ("Hello, world.").data)], goodTurn t = true := by
    intro t ht
    rcases List.mem_append.mp ht with ht | ht
    · exact hg t ht
    · simp only [List.mem_singleton] at ht
      subst ht
      decide
  have hscan : scanTurns true (appendFullContent (renderDialog m b ts) helloFragments) =
      ts ++ [(AI_MARKER, ("Hello, world.").data), (HUMAN_MARKER, [])] := by
    rw [appendFull_shape hts, hjoin, scanTurns_headersOf m b hm hb]
    rw [scan_turns_eof (ts ++ [(AI_MARKER, ("Hello, world.").data)]) hg2
      (Or.inl rfl) (by decide)]
    simp [stripChars]
  refine ⟨hscan, ?_⟩
  rw [appendFull_shape hts, hjoin]
  unfold parse_dialog_content
  rw [parse_model_headersOf hm _ hmr, parse_behavior_headersOf hm hb _ hbr htr]
  have hconv : parse_conversation_from_dialog (headersOf m b ++
      renderTurns ((ts ++ [(AI_MARKER, ("Hello, world.").data)]) ++ [(HUMAN_MARKER, [])])) =
      .error .emptyOrMissingFinalTurn := by
    rw [parse_conversation_eq]
    have hscan2 : scanTurns true (headersOf m b ++
        renderTurns ((ts ++ [(AI_MARKER, ("Hello, world.").data)]) ++ [(HUMAN_MARKER, [])])) =
        (ts ++ [(AI_MARKER, ("Hello, world.").data)]) ++ [(HUMAN_MARKER, [])] := by
      rw [scanTurns_headersOf m b hm hb]
      rw [scan_turns_eof (ts ++ [(AI_MARKER, ("Hello, world.").data)]) hg2
        (Or.inl rfl) (by decide)]
      simp [stripChars]
    rw [hscan2, List.getLast?_concat]
    show (if HUMAN_MARKER = HUMAN_MARKER ∧ ([] : List Char) ≠ [] then
        Except.ok ((ts ++ [(AI_MARKER, ("Hello, world.").data)]) ++ [(HUMAN_MARKER, [])])
      else Except.error DialogError.emptyOrMissingFinalTurn) = _
    rw [if_neg (by simp)]
  rw [hconv]

/-- C2 witness: the example file, appended and re-parsed concretely. -/
theorem C2_append_then_reparse_witness :
    renderDialog (("gpt-4o").data) (("default").data) [(HUMAN_MARKER, ("Hi").data)] =
      exampleFile ∧
    scanTurns true (appendFullContent exampleFile helloFragments) =
      [(HUMAN_MARKER, ("Hi").data), (AI_MARKER, ("Hello, world.").data),
        (HUMAN_MARKER, [])] ∧
    parse_dialog_content stdReg (appendFullContent exampleFile helloFragments) =
      .error .emptyOrMissingFinalTurn := by
  refine ⟨by decide, ?_, ?_⟩
  · have h := (@C2_append_then_reparse stdReg (("gpt-4o").data) (("default").data)
      [(HUMAN_MARKER, ("Hi").data)] stdRec HUMAN_MARKER (("Hi").data)
      (by decide) (by decide) (by decide)
      (by decide) (by decide) (by decide) (by decide) (by decide)).1
    rw [show appendFullContent (renderDialog (("gpt-4o").data) (("default").data)
      [(HUMAN_MARKER, ("Hi").data)]) helloFragments =
      appendFullContent exampleFile helloFragments from by decide] at h
    exact h
  · have h := (@C2_append_then_reparse stdReg (("gpt-4o").data) (("default").data)
      [(HUMAN_MARKER, ("Hi").data)] stdRec HUMAN_MARKER (("Hi").data)
      (by decide) (by decide) (by decide)
      (by decide) (by decide) (by decide) (by decide) (by decide)).2
    rw [show appendFullContent (renderDialog (("gpt-4o").data) (("default").data)
      [(HUMAN_MARKER, ("Hi").data)]) helloFragments =
      appendFullContent exampleFile helloFragments from by decide] at h
    exact h

/-- C2 counterexample: the claim as frozen fails on the spec's own example
file: it parses successfully, but after appending the fragments the
re-parse does not yield a conversation at all — `parse_dialog_file` raises
the final-turn invariant error because the fresh Human turn is empty. -/
theorem C2_append_then_reparse_cx :
    parse_dialog_content stdReg exampleFile =
      .ok { model := ("gpt-4o").data, temperature := some stdTemp,
            behavior_description := some (("You are helpful.").data),
            conversation := [(HUMAN_MARKER, ("Hi").data)] } ∧
    parse_dialog_content stdReg (appendFullContent exampleFile helloFragments) =
      .error .emptyOrMissingFinalTurn := by decide

/-- C3 (amended): when the fragment generator of
`append_ai_response_to_dialog` raises (or is cancelled) after yielding the
fragments `ys`, the file equals its prior content followed by a newline,
`AI: ` and exactly the yielded fragments in order, with no trailing Human
marker; and provided the prior file is canonical well-formed and the yielded
text contains no `\nHuman:`/`\nAI:` marker line, the extracted turns end in
the partial AI turn and a subsequent `parse_dialog_file` fails the
last-turn-is-Human invariant.  (The original claim, with no restriction on
the fragment text, fails: see the counterexample, where a fragment
containing a `Human:` line makes the next parse succeed.) -/
theorem C3_interrupted_append {reg : Registry} {m b : List Char}
    {ts : List (List Char × List Char)} {rec : BehaviorRecord} {lspk lc : List Char}
    {fs : FS} {path : List Char} {ys : List (List Char)}
    (hm : isToken m = true) (hb : isToken b = true)
    (hmr : memStr m reg.models = true)
    (hbr : lookupB reg.behaviors b = some rec) (htr : rec.truthy = true)
    (hg : ∀ t ∈ ts, goodTurn t = true)
    (hlast : ts.getLast? = some (lspk, lc)) (hspk : lspk = HUMAN_MARKER)
    (hfs : fs.read path = some (renderDialog m b ts))
    (hys : noBd (joinL ys) = true) :
    (append_ai_interrupted fs path ys).read path =
      some (renderDialog m b ts ++ '\n' :: (AI_MARKER ++ COLON_SPACE ++ joinL ys)) ∧
    scanTurns true (appendInterruptedContent (renderDialog m b ts) ys) =
      ts ++ [(AI_MARKER, stripChars (joinL ys))] ∧
    parse_dialog_file reg (append_ai_interrupted fs path ys) path =
      .error .emptyOrMissingFinalTurn := by
  have hts : ts ≠ [] := ne_nil_of_getLast? hlast
  have hread : (append_ai_interrupted fs path ys).read path =
      some (appendInterruptedContent (renderDialog m b ts) ys) := by
    unfold append_ai_interrupted
    rw [hfs]
    exact FS.read_write_self fs path _
  have hscan : scanTurns true (appendInterruptedContent (renderDialog m b ts) ys) =
      ts ++ [(AI_MARKER, stripChars (joinL ys))] := by
    rw [appendInterrupted_shape hts ys, scanTurns_headersOf m b hm hb]
    exact scan_turns_eof ts hg (Or.inr rfl) hys
  refine ⟨by rw [hread]; rfl, hscan, ?_⟩
  unfold parse_dialog_file
  rw [hread, appendInterrupted_shape hts ys]
  show parse_dialog_content reg
    (headersOf m b ++ renderTurns (ts ++ [(AI_MARKER, joinL ys)])) = _
  unfold parse_dialog_content
  rw [parse_model_headersOf hm _ hmr, parse_behavior_headersOf hm hb _ hbr htr]
  have hconv : parse_conversation_from_dialog
      (headersOf m b ++ renderTurns (ts ++ [(AI_MARKER, joinL ys)])) =
      .error .emptyOrMissingFinalTurn := by
    rw [parse_conversation_eq]
    have hscan2 : scanTurns true
        (headersOf m b ++ renderTurns (ts ++ [(AI_MARKER, joinL ys)])) =
        ts ++ [(AI_MARKER, stripChars (joinL ys))] := by
      rw [scanTurns_headersOf m b hm hb]
      exact scan_turns_eof ts hg (Or.inr rfl) hys
    rw [hscan2, List.getLast?_concat]
    show (if AI_MARKER = HUMAN_MARKER ∧ stripChars (joinL ys) ≠ [] then
        Except.ok (ts ++ [(AI_MARKER, stripChars (joinL ys))])
      else Except.error DialogError.emptyOrMissingFinalTurn) = _
    rw [if_neg (by rintro ⟨h1, _⟩; exact absurd h1 (by decide))]
  rw [hconv]

/-- C3 witness: prior example file, generator raises after yielding
`Partial`; evaluated concretely. -/
theorem C3_interrupted_append_witness :
    (FS.read { files := [((("d/chat.txt").data), exampleFile)], dirs := [("d").data] }
      (("d/chat.txt").data) = some exampleFile ∧ noBd (joinL [("Partial").data]) = true) ∧
    (append_ai_interrupted
        { files := [((("d/chat.txt").data), exampleFile)], dirs := [("d").data] }
        (("d/chat.txt").data) [("Partial").data]).read (("d/chat.txt").data) =
      some (renderDialog (("gpt-4o").data) (("default").data)
        [(HUMAN_MARKER, ("Hi").data)] ++ '\n' ::
          (AI_MARKER ++ COLON_SPACE ++ joinL [("Partial").data])) ∧
    parse_dialog_file stdReg
      (append_ai_interrupted
        { files := [((("d/chat.txt").data), exampleFile)], dirs := [("d").data] }
        (("d/chat.txt").data) [("Partial").data])
      (("d/chat.txt").data) = .error .emptyOrMissingFinalTurn := by
  have h := @C3_interrupted_append stdReg (("gpt-4o").data) (("default").data)
    [(HUMAN_MARKER, ("Hi").data)] stdRec HUMAN_MARKER (("Hi").data)
    { files := [((("d/chat.txt").data), exampleFile)], dirs := [("d").data] }
    (("d/chat.txt").data) [("Partial").data]
    (by decide) (by decide) (by decide) (by decide) (by decide) (by decide)
    (by decide) (by decide) (by decide) (by decide)
  exact ⟨⟨by decide, by decide⟩, h.1, h.2.2⟩

/-- C3 counterexample: the claim as frozen fails when a yielded fragment
itself contains a Human marker line: after the interrupted append the next
parse succeeds (the fragment's `Human: hi` line becomes a valid final
turn), instead of failing the last-turn invariant. -/
theorem C3_interrupted_append_cx :
    parse_dialog_content stdReg
      (appendInterruptedContent exampleFile [("x\nHuman: hi").data]) =
      .ok { model := ("gpt-4o").data, temperature := some stdTemp,
            behavior_description := some (("You are helpful.").data),
            conversation := [(HUMAN_MARKER, ("Hi").data), (AI_MARKER, ("x").data),
              (HUMAN_MARKER, ("hi").data)] } := by decide

/-- C4 (amended): no content produced by the conversation scan ever
contains an interior marker boundary — the text `\nHuman:` or `\nAI:`
never occurs inside a returned turn content.  (The original claim — that a
content never contains a *subsequent turn's marker line* at all, even for
whitespace-only turns — fails: when only whitespace separates a marker
from the next marker line, the next marker line is absorbed at the start
of the content; see the counterexample.) -/
theorem C4_no_interior_boundary (s : List Char) (spk c : List Char)
    (h : (spk, c) ∈ scanTurns true s) :
    hasSub BD_HUMAN c = false ∧ hasSub BD_AI c = false :=
  scan_no_boundary_aux (s.length + 1) true s spk c h

/-- C4 witness: a concrete scan membership fed through the theorem. -/
theorem C4_no_interior_boundary_witness :
    ((HUMAN_MARKER, ("Hi\nmore").data) ∈
        scanTurns true (("Human: Hi\nmore\n\nAI: ok\n\nHuman: q").data)) ∧
    hasSub BD_HUMAN (("Hi\nmore").data) = false ∧
    hasSub BD_AI (("Hi\nmore").data) = false :=
  ⟨by decide, C4_no_interior_boundary (("Human: Hi\nmore\n\nAI: ok\n\nHuman: q").data)
    HUMAN_MARKER (("Hi\nmore").data) (by decide)⟩

/-- C4 counterexample: the claim as frozen fails on `Human:\nAI: x` — the
sole extracted turn's content is the full following marker line `AI: x`,
because the greedy `\s*` crosses the newline before the boundary lookahead
can apply. -/
theorem C4_marker_absorbed_cx :
    scanTurns true (("Human:\nAI: x").data) = [(HUMAN_MARKER, ("AI: x").data)] ∧
    startsWith (AI_MARKER ++ [':']) (("AI: x").data) = true := by decide

/-- C5 (confirmed): for every file with valid model and behavior headers,
if the conversation scan finds no turns, or the final turn's speaker is not
the Human marker, or the final turn's trimmed content is empty, then
`parse_dialog_file` fails with the final-turn invariant error (and hence
returns no document). -/
theorem C5_final_turn_invariant (reg : Registry) (s : List Char) (M : List Char)
    (bd : Option (List Char) × Option Rat)
    (hm : parse_model_from_dialog reg s = .ok M)
    (hb : parse_behavior_from_dialog reg s = .ok bd)
    (hc : scanTurns true s = [] ∨
      ∃ lspk lc, (scanTurns true s).getLast? = some (lspk, lc) ∧
        (lspk ≠ HUMAN_MARKER ∨ lc = [])) :
    parse_dialog_content reg s = .error .emptyOrMissingFinalTurn := by
  obtain ⟨bd1, bd2⟩ := bd
  have hconv : parse_conversation_from_dialog s = .error .emptyOrMissingFinalTurn := by
    rw [parse_conversation_eq]
    rcases hc with hc | ⟨lspk, lc, hl, hcond⟩
    · rw [hc]
      rfl
    · rw [hl]
      show (if lspk = HUMAN_MARKER ∧ lc ≠ [] then Except.ok (scanTurns true s)
        else Except.error DialogError.emptyOrMissingFinalTurn) = _
      rw [if_neg]
      rintro ⟨h1, h2⟩
      rcases hcond with hcond | hcond
      · exact hcond h1
      · exact h2 hcond
  unfold parse_dialog_content
  rw [hm, hb, hconv]

/-- C5 witness: a file whose final turn is an AI turn, evaluated
concretely. -/
theorem C5_final_turn_invariant_witness :
    (parse_model_from_dialog stdReg
        (("model: gpt-4o\nbehavior: default\n\nHuman: Hi\n\nAI: done").data) =
      .ok (("gpt-4o").data) ∧
    parse_behavior_from_dialog stdReg
        (("model: gpt-4o\nbehavior: default\n\nHuman: Hi\n\nAI: done").data) =
      .ok (some (("You are helpful.").data), some stdTemp) ∧
    (scanTurns true (("model: gpt-4o\nbehavior: default\n\nHuman: Hi\n\nAI: done").data)).getLast? =
      some (AI_MARKER, ("done").data)) ∧
    parse_dialog_content stdReg
      (("model: gpt-4o\nbehavior: default\n\nHuman: Hi\n\nAI: done").data) =
      .error .emptyOrMissingFinalTurn :=
  ⟨⟨by decide, by decide, by decide⟩,
    C5_final_turn_invariant stdReg _ (("gpt-4o").data)
      (some (("You are helpful.").data), some stdTemp) (by decide) (by decide)
      (Or.inr ⟨AI_MARKER, ("done").data, by decide, Or.inl (by decide)⟩)⟩

/-- C6 (amended): a file with no `model: <token>` match always fails with
the missing-model error; a file whose model line matches and names a
registry-known model but which has no `behavior: <token>` match always
fails with the missing-behavior error.  (The original claim — that a
missing behavior line yields the missing-behavior error regardless of the
rest of the file — fails when the model error preempts it: see the
counterexample.) -/
theorem C6_missing_headers (reg : Registry) (s : List Char) :
    (searchHeader MODEL_KW s = none →
      parse_dialog_content reg s = .error .missingModel) ∧
    (∀ M, searchHeader MODEL_KW s = some M → memStr M reg.models = true →
      searchHeader BEHAVIOR_KW s = none →
      parse_dialog_content reg s = .error .missingBehavior) := by
  constructor
  · intro h
    have h1 : parse_model_from_dialog reg s = .error .missingModel := by
      unfold parse_model_from_dialog
      rw [h]
    unfold parse_dialog_content
    rw [h1]
  · intro M hM hmem hB
    have h1 : parse_model_from_dialog reg s = .ok M := by
      unfold parse_model_from_dialog
      rw [hM]
      show (if is_model_valid reg M = true then Except.ok M
        else Except.error (DialogError.unsupportedModel M)) = Except.ok M
      unfold is_model_valid
      rw [hmem]
      simp
    have h2 : parse_behavior_from_dialog reg s = .error .missingBehavior := by
      unfold parse_behavior_from_dialog
      rw [hB]
    unfold parse_dialog_content
    rw [h1, h2]

/-- C6 witness: a file with no model line fails with the missing-model
error; evaluated concretely through the theorem. -/
theorem C6_missing_headers_witness :
    searchHeader MODEL_KW (("behavior: default\n\nHuman: Hi\n").data) = none ∧
    parse_dialog_content stdReg (("behavior: default\n\nHuman: Hi\n").data) =
      .error .missingModel :=
  ⟨by decide, (C6_missing_headers stdReg (("behavior: default\n\nHuman: Hi\n").data)).1
    (by decide)⟩

/-- C6 counterexample: the claim as frozen fails on `model: gpt-9` — the
file is missing a behavior line, yet the parse fails with the
unsupported-model error (the model check runs first), not with the
missing-behavior error. -/
theorem C6_preempted_cx :
    searchHeader BEHAVIOR_KW (("model: gpt-9").data) = none ∧
    parse_dialog_content stdReg (("model: gpt-9").data) =
      .error (.unsupportedModel (("gpt-9").data)) := by decide

/-- C7 (amended): when the behavior header resolves to a registry-known
name, the corrupt-behavior-data error is raised exactly when the record is
Python-falsy (an empty record); when the record is non-empty (truthy),
parsing succeeds and returns whatever `description`/`temperature` fields
the record has — absent fields are returned as `None`, no error.  (The
original claim — that a record lacking a field yields the error — fails:
see the counterexample.) -/
theorem C7_behavior_truthiness (reg : Registry) (s name : List Char)
    (rec : BehaviorRecord)
    (h1 : searchHeader BEHAVIOR_KW s = some name)
    (h2 : lookupB reg.behaviors name = some rec) :
    (rec.truthy = false →
      parse_behavior_from_dialog reg s = .error (.corruptBehaviorData name)) ∧
    (rec.truthy = true →
      parse_behavior_from_dialog reg s = .ok (rec.description, rec.temperature)) := by
  have hbase : parse_behavior_from_dialog reg s =
      (if rec.truthy = true then Except.ok (rec.description, rec.temperature)
        else Except.error (DialogError.corruptBehaviorData name)) := by
    unfold parse_behavior_from_dialog
    rw [h1]
    show (if is_behavior_valid reg name = true then
        (match lookupB reg.behaviors name with
        | some rec =>
          if rec.truthy = true then Except.ok (rec.description, rec.temperature)
          else Except.error (DialogError.corruptBehaviorData name)
        | none => Except.error (DialogError.corruptBehaviorData name))
      else Except.error (DialogError.unsupportedBehavior name)) = _
    unfold is_behavior_valid
    rw [h2]
    simp
  constructor
  · intro ht
    rw [hbase, if_neg (by simp [ht])]
  · intro ht
    rw [hbase, if_pos ht]

/-- C7 witness: a registry-known behavior whose record is empty (falsy)
fails with the corrupt-behavior-data error; evaluated concretely. -/
theorem C7_behavior_truthiness_witness :
    (searchHeader BEHAVIOR_KW (("behavior: b\n").data) = some (("b").data) ∧
      lookupB (Registry.mk [] [((("b").data),
        { description := none, temperature := none, otherFields := 0 })]).behaviors
        (("b").data) =
        some { description := none, temperature := none, otherFields := 0 } ∧
      BehaviorRecord.truthy
        { description := none, temperature := none, otherFields := 0 } = false) ∧
    parse_behavior_from_dialog
      (Registry.mk [] [((("b").data),
        { description := none, temperature := none, otherFields := 0 })])
      (("behavior: b\n").data) = .error (.corruptBehaviorData (("b").data)) :=
  ⟨⟨by decide, by decide, by decide⟩,
    (C7_behavior_truthiness _ _ (("b").data)
      { description := none, temperature := none, otherFields := 0 }
      (by decide) (by decide)).1 (by decide)⟩

/-- C7 counterexample: the claim as frozen fails for a behavior record that
lacks the description field but carries a temperature: the record is a
non-empty (truthy) dict, so `parse_behavior_from_dialog` returns
`(None, temperature)` instead of raising the corrupt-behavior-data
error. -/
theorem C7_missing_field_cx :
    (lookupB [(("default").data,
        { description := none, temperature := some stdTemp, otherFields := 0 })]
      (("default").data)).isSome = true ∧
    parse_behavior_from_dialog
      (Registry.mk [("gpt-4o").data]
        [((("default").data),
          { description := none, temperature := some stdTemp, otherFields := 0 })])
      (("behavior: default\n").data) = .ok (none, some stdTemp) := by decide

/-- C8 (code bug): for a dialog file at a bare filename (no directory
separator in the path), `os.path.dirname` is the empty string, the
`os.path.exists(directory)` guard is false, and `os.makedirs("")` raises
`FileNotFoundError` — before the function ever checks whether the dialog
file exists.  So `check_or_create_dialog_file` raises even though the file
is present, contradicting the claim (and the function's own documented
contract of returning `True` and leaving the file alone). -/
theorem C8_bare_path_crash :
    FS.pathExists { files := [((("chat.txt").data), exampleFile)], dirs := [] }
      (("chat.txt").data) = true ∧
    check_or_create_dialog_file stdReg stdDc
      { files := [((("chat.txt").data), exampleFile)], dirs := [] }
      (("chat.txt").data) =
      (.error .fileSystemError,
        { files := [((("chat.txt").data), exampleFile)], dirs := [] }) := by decide

theorem create_default_none {reg : Registry} {dc : DefaultConfig} {fs fs2 : FS}
    {path : List Char}
    (h : create_default_dialog_file reg dc fs path = (none, fs2)) :
    is_model_valid reg dc.default_model = true ∧
    is_behavior_valid reg dc.default_behavior = true ∧
    fs2 = fs.write path (skeletonContent dc.default_model dc.default_behavior) := by
  unfold create_default_dialog_file at h
  by_cases h1 : is_model_valid reg dc.default_model = true
  · by_cases h2 : is_behavior_valid reg dc.default_behavior = true
    · rw [if_neg (by simp [h1]), if_neg (by simp [h2])] at h
      refine ⟨h1, h2, ?_⟩
      injection h with _ h3
      exact h3.symm
    · rw [if_neg (by simp [h1]), if_pos (by simpa using h2)] at h
      simp at h
  · rw [if_pos (by simpa using h1)] at h
    simp at h

theorem check_step_inv {reg : Registry} {dc : DefaultConfig} {fs1 fs' : FS}
    {path : List Char}
    (h : (if fs1.osExists path = true then
        ((Except.ok true : Except DialogError Bool), fs1)
      else
        match create_default_dialog_file reg dc fs1 path with
        | (some e, fs2) => (Except.error e, fs2)
        | (none, fs2) => (Except.ok false, fs2)) = (.ok false, fs')) :
    is_model_valid reg dc.default_model = true ∧
    is_behavior_valid reg dc.default_behavior = true ∧
    fs'.read path = some (skeletonContent dc.default_model dc.default_behavior) := by
  by_cases hpe : fs1.osExists path = true
  · rw [if_pos hpe] at h
    simp at h
  · rw [if_neg hpe] at h
    cases hcd : create_default_dialog_file reg dc fs1 path with
    | mk e fs2 =>
      cases e with
      | some e0 =>
        rw [hcd] at h
        have h2 : ((Except.error e0 : Except DialogError Bool), fs2) =
            (.ok false, fs') := h
        simp at h2
      | none =>
        rw [hcd] at h
        have h2 : ((Except.ok false : Except DialogError Bool), fs2) =
            (.ok false, fs') := h
        obtain ⟨hmv, hbv, hw⟩ := create_default_none hcd
        injection h2 with _ h3
        subst h3
        refine ⟨hmv, hbv, ?_⟩
        rw [hw]
        exact FS.read_write_self fs1 path _

theorem check_or_create_ok_false {reg : Registry} {dc : DefaultConfig}
    {fs fs' : FS} {path : List Char}
    (h : check_or_create_dialog_file reg dc fs path = (.ok false, fs')) :
    is_model_valid reg dc.default_model = true ∧
    is_behavior_valid reg dc.default_behavior = true ∧
    fs'.read path = some (skeletonContent dc.default_model dc.default_behavior) := by
  simp only [check_or_create_dialog_file] at h
  by_cases hde : fs.osExists (dirname path) = true
  · rw [if_pos hde] at h
    exact check_step_inv h
  · rw [if_neg hde] at h
    cases hmk : os_makedirs fs (dirname path) with
    | none =>
      rw [hmk] at h
      have h2 : ((Except.error DialogError.fileSystemError : Except DialogError Bool), fs) =
          (.ok false, fs') := h
      simp at h2
    | some fs1 =>
      rw [hmk] at h
      exact check_step_inv h

/-- C9 (confirmed): if the default configuration names an unknown default
model or behavior, `create_default_dialog_file` raises the configuration
error before it ever opens the dialog file for writing — the filesystem is
returned unchanged — and hence `check_or_create_dialog_file` on a path
where `os.path.exists` is false (no file and no directory there, with its
directory step passing) propagates the error with no file created at the
target path. -/
theorem C9_invalid_defaults (reg : Registry) (dc : DefaultConfig) (fs : FS)
    (path : List Char)
    (hbad : memStr dc.default_model reg.models = false ∨
      is_behavior_valid reg dc.default_behavior = false) :
    (∃ e, create_default_dialog_file reg dc fs path = (some e, fs) ∧
      (e = .defaultModelNotFound dc.default_model ∨
        e = .defaultBehaviorNotFound dc.default_behavior)) ∧
    (fs.osExists path = false → fs.osExists (dirname path) = true →
      ∃ e, check_or_create_dialog_file reg dc fs path = (.error e, fs)) := by
  have hcd : ∃ e, create_default_dialog_file reg dc fs path = (some e, fs) ∧
      (e = .defaultModelNotFound dc.default_model ∨
        e = .defaultBehaviorNotFound dc.default_behavior) := by
    by_cases h1 : is_model_valid reg dc.default_model = true
    · have h2 : is_behavior_valid reg dc.default_behavior = false := by
        rcases hbad with hbad | hbad
        · exact absurd h1 (by unfold is_model_valid; rw [hbad]; simp)
        · exact hbad
      refine ⟨.defaultBehaviorNotFound dc.default_behavior, ?_, Or.inr rfl⟩
      unfold create_default_dialog_file
      rw [if_neg (by simp [h1]), if_pos (by simp [h2])]
    · refine ⟨.defaultModelNotFound dc.default_model, ?_, Or.inl rfl⟩
      unfold create_default_dialog_file
      rw [if_pos (by simpa using h1)]
  refine ⟨hcd, ?_⟩
  intro hpe hde
  obtain ⟨e, he, _⟩ := hcd
  refine ⟨e, ?_⟩
  simp only [check_or_create_dialog_file]
  rw [if_pos hde, if_neg (by simp [hpe]), he]

/-- C9 witness: an unknown default model with the file missing and its
directory present, evaluated concretely through the theorem. -/
theorem C9_invalid_defaults_witness :
    (memStr (("gpt-9").data) stdReg.models = false ∨
      is_behavior_valid stdReg (("default").data) = false) ∧
    ((∃ e, create_default_dialog_file stdReg
        (DefaultConfig.mk (("gpt-9").data) (("default").data))
        (FS.mk [] [("d").data]) (("d/f").data) = (some e, FS.mk [] [("d").data]) ∧
      (e = .defaultModelNotFound (DefaultConfig.mk (("gpt-9").data)
          (("default").data)).default_model ∨
        e = .defaultBehaviorNotFound (DefaultConfig.mk (("gpt-9").data)
          (("default").data)).default_behavior)) ∧
    ((FS.mk [] [("d").data]).osExists (("d/f").data) = false →
      (FS.mk [] [("d").data]).osExists (dirname (("d/f").data)) = true →
      ∃ e, check_or_create_dialog_file stdReg
        (DefaultConfig.mk (("gpt-9").data) (("default").data))
        (FS.mk [] [("d").data]) (("d/f").data) = (.error e, FS.mk [] [("d").data]))) :=
  ⟨Or.inl (by decide),
    C9_invalid_defaults stdReg (DefaultConfig.mk (("gpt-9").data) (("default").data))
      (FS.mk [] [("d").data]) (("d/f").data) (Or.inl (by decide))⟩

/-- C10 (amended): whenever `check_or_create_dialog_file` freshly creates
the skeleton file, provided the default model and behavior names are
well-formed header tokens and the default behavior's registry record
carries data (is truthy), an immediate `parse_dialog_file` fails with the
final-turn invariant error: the skeleton's only turn is a Human turn with
empty content.  (The original claim, with no condition on the behavior
record, fails: with an empty (falsy) record the parse fails with the
corrupt-behavior-data error instead — see the counterexample.  In no case
does a fresh skeleton parse successfully.) -/
theorem C10_fresh_skeleton_invalid (reg : Registry) (dc : DefaultConfig)
    (fs fs' : FS) (path : List Char) (rec : BehaviorRecord)
    (hm : isToken dc.default_model = true) (hb : isToken dc.default_behavior = true)
    (hrec : lookupB reg.behaviors dc.default_behavior = some rec)
    (htr : rec.truthy = true)
    (hcr : check_or_create_dialog_file reg dc fs path = (.ok false, fs')) :
    parse_dialog_file reg fs' path = .error .emptyOrMissingFinalTurn := by
  obtain ⟨hmv, _, hread⟩ := check_or_create_ok_false hcr
  unfold parse_dialog_file
  rw [hread]
  have hskel : skeletonContent dc.default_model dc.default_behavior =
      headersOf dc.default_model dc.default_behavior ++ (HUMAN_MARKER ++ COLON_SPACE) := by
    simp [skeletonContent, headersOf, COLON_SPACE]
  rw [hskel]
  show parse_dialog_content reg
    (headersOf dc.default_model dc.default_behavior ++ (HUMAN_MARKER ++ COLON_SPACE)) = _
  unfold parse_dialog_content
  rw [parse_model_headersOf hm _ (by unfold is_model_valid at hmv; exact hmv)]
  rw [parse_behavior_headersOf hm hb _ hrec htr]
  have hconv : parse_conversation_from_dialog
      (headersOf dc.default_model dc.default_behavior ++ (HUMAN_MARKER ++ COLON_SPACE)) =
      .error .emptyOrMissingFinalTurn := by
    rw [parse_conversation_eq, scanTurns_headersOf _ _ hm hb]
    decide
  rw [hconv]

/-- C10 witness: a fresh skeleton created with the standard registry and
defaults, immediately parsed; evaluated concretely through the theorem. -/
theorem C10_fresh_skeleton_invalid_witness :
    (isToken stdDc.default_model = true ∧ isToken stdDc.default_behavior = true ∧
      lookupB stdReg.behaviors stdDc.default_behavior = some stdRec ∧
      stdRec.truthy = true ∧
      check_or_create_dialog_file stdReg stdDc (FS.mk [] []) (("d/f").data) =
        (.ok false,
          (check_or_create_dialog_file stdReg stdDc (FS.mk [] []) (("d/f").data)).2)) ∧
    parse_dialog_file stdReg
      (check_or_create_dialog_file stdReg stdDc (FS.mk [] []) (("d/f").data)).2
      (("d/f").data) = .error .emptyOrMissingFinalTurn :=
  ⟨⟨by decide, by decide, by decide, by decide, by decide⟩,
    C10_fresh_skeleton_invalid stdReg stdDc (FS.mk [] []) _ (("d/f").data) stdRec
      (by decide) (by decide) (by decide) (by decide) (by decide)⟩

/-- C10 counterexample: the claim as frozen fails when the default
behavior's registry record is empty (falsy): the skeleton is freshly
created, but the immediate parse fails with the corrupt-behavior-data
error, not the final-turn invariant error. -/
theorem C10_corrupt_record_cx :
    (check_or_create_dialog_file
        (Registry.mk [("m").data] [((("b").data), BehaviorRecord.mk none none 0)])
        (DefaultConfig.mk (("m").data) (("b").data)) (FS.mk [] []) (("d/f").data)).1 =
      .ok false ∧
    parse_dialog_file
      (Registry.mk [("m").data] [((("b").data), BehaviorRecord.mk none none 0)])
      (check_or_create_dialog_file
        (Registry.mk [("m").data] [((("b").data), BehaviorRecord.mk none none 0)])
        (DefaultConfig.mk (("m").data) (("b").data)) (FS.mk [] []) (("d/f").data)).2
      (("d/f").data) = .error (.corruptBehaviorData (("b").data)) := by decide
